import Mathlib

/-!
Day 1 (`day1.c`): paired-difference summation

A shallow embedding of `main` in `day1.c`.

* The two arrays `array1`, `array2` are `List Int` values; every array access
  is checked (`rd`, `wr` return `none` outside the list), so a result of the
  form `some _` also says that no access left the array.
* `array1` and `array2` are automatic (stack) arrays without an initialiser:
  their contents before the read loop are indeterminate, and are a parameter
  (`init1`, `init2`) of every definition that starts before the read loop.
* `int` is a 32-bit two's-complement integer; arithmetic on it is exact
  integer arithmetic followed by `wrap32`.
* `for` loops are `forLoop`; the `while` loop of the reader carries fuel.
-/

namespace Day1

/-! ## Machine integers -/

/-- The smallest `int`. -/
def INT_MIN : Int := -2147483648

/-- The largest `int`. -/
def INT_MAX : Int := 2147483647

/-- Reduction of an exact integer to the 32-bit two's-complement range. -/
def wrap32 (x : Int) : Int := (x + 2147483648) % 4294967296 - 2147483648

/-- The `int` subtraction `x - y`. -/
def isub (x y : Int) : Int := wrap32 (x - y)

/-- The `int` multiplication `x * y`. -/
def imul (x y : Int) : Int := wrap32 (x * y)

/-- The `int` addition `x + y`. -/
def iadd (x y : Int) : Int := wrap32 (x + y)

/-- A value is representable as an `int`. -/
def InRange (x : Int) : Prop := INT_MIN ≤ x ∧ x ≤ INT_MAX

/-! ## Arrays and loops -/

/-- Read `a[i]`; `none` when `i` is outside the array. -/
def rd (a : List Int) (i : Nat) : Option Int := a[i]?

/-- Write `a[i] = v`; `none` when `i` is outside the array. -/
def wr (a : List Int) (i : Nat) (v : Int) : Option (List Int) :=
  if i < a.length then some (a.set i v) else none

/-- Run `body i` for `i = start, start + 1, ...`, `count` times, threading the state. -/
def forLoopFrom {σ : Type} (body : Nat → σ → Option σ) : Nat → Nat → σ → Option σ
  | 0, _, s => some s
  | count + 1, start, s =>
    match body start s with
    | none => none
    | some s1 => forLoopFrom body count (start + 1) s1

/-- The loop `for (int i = 0; i < n; i++) body`. -/
def forLoop {σ : Type} (n : Nat) (body : Nat → σ → Option σ) (s : σ) : Option σ :=
  forLoopFrom body n 0 s

/-! ## The sorter (lines 24-41) -/

/-- The body of the inner loop (lines 26-30): compare `a[j]` with `a[j + 1]` and
swap them when the first is greater. -/
def swapStep (j : Nat) (a : List Int) : Option (List Int) :=
  match rd a j, rd a (j + 1) with
  | some x, some y =>
    if x > y then
      -- temp = a[j]; a[j] = a[j + 1]; a[j + 1] = temp;
      let temp := x
      match wr a j y with
      | none => none
      | some a1 => wr a1 (j + 1) temp
    else some a
  | _, _ => none

/-- One run of the inner loop `for (int j = 0; j < 999; j++)` (lines 25-31). -/
def innerLoop (a : List Int) : Option (List Int) :=
  forLoop 999 swapStep a

/-- The sort of one array: `for (int i = 0; i < 1000; i++)` around the inner
loop (lines 24-32 for `array1`, lines 33-41 for `array2`). -/
def sortArray (a : List Int) : Option (List Int) :=
  forLoop 1000 (fun _ s => innerLoop s) a

/-! ## The reduce loop (lines 43-54) -/

/-- The body of the reduce loop (lines 47-53), on the accumulator `sum`. -/
def reduceStep (array1 array2 : List Int) (i : Nat) (sum : Int) : Option Int :=
  match rd array2 i, rd array1 i with
  | some r, some l =>
    let difference := isub r l
    let difference := if difference < 0 then imul difference (-1) else difference
    some (iadd sum difference)
  | _, _ => none

/-- The reduce loop: `sum = 0; for (int i = 0; i < 1000; i++) ...` (lines 43-54). -/
def reduceLoop (array1 array2 : List Int) : Option Int :=
  forLoop 1000 (reduceStep array1 array2) 0

/-- Lines 24-54: sort `array1`, sort `array2`, then reduce; the result is `sum`. -/
def sortAndReduce (array1 array2 : List Int) : Option Int :=
  match sortArray array1 with
  | none => none
  | some s1 =>
    match sortArray array2 with
    | none => none
    | some s2 => reduceLoop s1 s2

/-! ## The reader (lines 9-19)

The file is the list of characters still to be read. `fscanf` follows the C
standard for the format `"%d %d"`: each `%d` skips white space and then reads an
optional sign and a non-empty run of decimal digits; the white-space directive
between the two skips white space. -/

/-- The character test `isspace` of the C locale. -/
def isspace (c : Char) : Bool :=
  c = ' ' || c = '\t' || c = '\n' || c = '\x0b' || c = '\x0c' || c = '\r'

/-- The character test `isdigit`. -/
def isdigit (c : Char) : Bool :=
  48 ≤ c.toNat && c.toNat ≤ 57

/-- The value of a decimal digit character. -/
def digitVal (c : Char) : Nat := c.toNat - 48

/-- Skip leading white space. -/
def skipSpace : List Char → List Char
  | [] => []
  | c :: cs => if isspace c then skipSpace cs else c :: cs

/-- Read the longest run of digits, accumulating its decimal value onto `acc`. -/
def scanDigits (acc : Nat) : List Char → Nat × List Char
  | [] => (acc, [])
  | c :: cs => if isdigit c then scanDigits (acc * 10 + digitVal c) cs else (acc, c :: cs)

/-- The outcome of one `%d` conversion. -/
inductive Conv where
  /-- An integer was read; `rest` is the unread input. -/
  | ok (value : Int) (rest : List Char)
  /-- The next input is not an integer (matching failure). -/
  | matchFail (rest : List Char)
  /-- The input ended before any character of an integer (input failure). -/
  | inputFail

/-- One `%d` conversion. A value outside the `int` range (undefined behaviour in C)
is stored reduced to 32 bits. -/
def scanInt (s : List Char) : Conv :=
  match skipSpace s with
  | [] => Conv.inputFail
  | c :: cs =>
    if c = '-' || c = '+' then
      match cs with
      | [] => Conv.matchFail []
      | d :: ds =>
        if isdigit d then
          let r := scanDigits 0 (d :: ds)
          Conv.ok (wrap32 (if c = '-' then -(r.1 : Int) else (r.1 : Int))) r.2
        else Conv.matchFail (d :: ds)
    else if isdigit c then
      let r := scanDigits 0 (c :: cs)
      Conv.ok (wrap32 (r.1 : Int)) r.2
    else Conv.matchFail (c :: cs)

/-- The value `EOF` returned by `fscanf`. -/
def EOF : Int := -1

/-- The state of the read loop: the unread input, the two arrays and `index`. -/
structure ReadState where
  /-- The unread rest of the file. -/
  file : List Char
  /-- The contents of `array1`. -/
  array1 : List Int
  /-- The contents of `array2`. -/
  array2 : List Int
  /-- The variable `index`. -/
  index : Nat

/-- The call `fscanf(file, "%d %d", &array1[index], &array2[index])` (line 12): its
return value and the state after it. `none` when `index` is outside an array. -/
def fscanf2 (s : ReadState) : Option (Int × ReadState) :=
  if s.index < s.array1.length ∧ s.index < s.array2.length then
    match scanInt s.file with
    | Conv.inputFail => some (EOF, { s with file := [] })
    | Conv.matchFail rest => some (0, { s with file := rest })
    | Conv.ok v1 rest1 =>
      let a1 := s.array1.set s.index v1
      match scanInt (skipSpace rest1) with
      | Conv.inputFail => some (1, { s with file := [], array1 := a1 })
      | Conv.matchFail rest2 => some (1, { s with file := rest2, array1 := a1 })
      | Conv.ok v2 rest2 =>
        some (2, { s with file := rest2, array1 := a1, array2 := s.array2.set s.index v2 })
  else none

/-- The read loop (lines 12-17), with fuel for the `while`; `none` when the fuel
runs out or an access leaves an array. -/
def readLoop : Nat → ReadState → Option ReadState
  | 0, _ => none
  | fuel + 1, s =>
    match fscanf2 s with
    | none => none
    | some (ret, s1) =>
      if ret = 2 then
        -- index++; if (index >= 1000) break;
        let s2 := { s1 with index := s1.index + 1 }
        if s2.index ≥ 1000 then some s2 else readLoop fuel s2
      else some s1

/-- The reader: `index = 0` and the read loop on the opened file. `init1` and
`init2` are the contents of the two arrays before the loop. Every iteration but
the last increments `index` below 1000, so 1000 units of fuel are enough. -/
def reader (file : List Char) (init1 init2 : List Int) : Option ReadState :=
  readLoop 1000 { file := file, array1 := init1, array2 := init2, index := 0 }

/-! ## The whole program -/

/-- The value of `sum` at line 54: read, sort both arrays, reduce. -/
def total (file : List Char) (init1 init2 : List Int) : Option Int :=
  match reader file init1 init2 with
  | none => none
  | some s => sortAndReduce s.array1 s.array2

/-- The decimal digit character of `d < 10`. -/
def digitChar (d : Nat) : Char := Char.ofNat (48 + d)

/-- The decimal digits of `n`, most significant first, with fuel. -/
def renderNatFuel : Nat → Nat → List Char
  | 0, _ => []
  | fuel + 1, n =>
    if n < 10 then [digitChar n] else renderNatFuel fuel (n / 10) ++ [digitChar (n % 10)]

/-- The decimal representation of a natural number. -/
def renderNat (n : Nat) : List Char := renderNatFuel (n + 1) n

/-- The decimal representation of an integer, as `printf("%d")` writes it. -/
def renderInt (v : Int) : List Char :=
  if v < 0 then '-' :: renderNat v.natAbs else renderNat v.natAbs

/-- The call `printf("\n%d\n\n", sum)` (line 56): the text written. -/
def printf (sum : Int) : List Char :=
  '\n' :: (renderInt sum ++ ['\n', '\n'])

/-- The function `main`. The argument `file` is what `fopen("day1.txt", "r")` gives:
the contents of the file, or `none` (a null pointer) when it cannot be opened. The
program does not test for the null pointer; `fscanf` on it is undefined behaviour,
modelled as the fault `none`. The result is the text on standard output and the
exit status. -/
def main (file : Option (List Char)) (init1 init2 : List Int) : Option (List Char × Int) :=
  match file with
  | none => none
  | some f =>
    match total f init1 init2 with
    | none => none
    | some sum => some (printf sum, 0)

/-! ## Input texts -/

/-- A gap between the two integers of a record: non-empty white space. -/
def IsGap (gap : List Char) : Prop := gap ≠ [] ∧ ∀ c ∈ gap, isspace c = true

/-- Both integers of a record are representable as `int`. -/
def RecordInRange (p : Int × Int) : Prop := InRange p.1 ∧ InRange p.2

/-- One record of the input format as text: the two integers in decimal, `gap`
between them, and a newline. -/
def renderRecord (gap : List Char) (p : Int × Int) : List Char :=
  renderInt p.1 ++ gap ++ renderInt p.2 ++ ['\n']

/-- The text of a list of records, one per line. -/
def render (gap : List Char) : List (Int × Int) → List Char
  | [] => []
  | p :: ps => renderRecord gap p ++ render gap ps

/-! ## Sample arrays -/

/-- The array 1000, 999, ..., 1. -/
def descending : List Int := (List.range 1000).map (fun n : Nat => 1000 - (n : Int))

/-! ## Sample inputs -/

/-- The six records of the worked example. -/
def sampleRecords : List (Int × Int) := [(3, 4), (4, 3), (2, 5), (1, 3), (3, 9), (3, 3)]

/-- The text of the worked example. -/
def sampleText : List Char := "3 4\n4 3\n2 5\n1 3\n3 9\n3 3\n".toList

/-- An input of 1000 records `0 2147483647`. -/
def overflowRecords : List (Int × Int) := List.replicate 1000 (0, 2147483647)

/-- An input of 1001 records `1 2`. -/
def longRecords : List (Int × Int) := List.replicate 1001 (1, 2)

/-- An array of 1000 zeros. -/
def zeros : List Int := List.replicate 1000 0

/-- An array of 1000 ones. -/
def ones : List Int := List.replicate 1000 1


/-! ## Definitions used in the proofs -/

/-- One pass of the inner loop on a list, carrying the current element `c` over the
rest: the list form of `innerLoop`, used in the proofs. -/
def bubbleAux (c : Int) : List Int → List Int
  | [] => [c]
  | y :: t => if c > y then y :: bubbleAux c t else c :: bubbleAux y t

/-- One pass of the inner loop on a list. -/
def bubble : List Int → List Int
  | [] => []
  | c :: t => bubbleAux c t

/-- After `k` passes the last `k` positions are settled: they are ascending and
every earlier value is at most every value among them. -/
def Settled (k : Nat) (l : List Int) : Prop :=
  ∃ p s, l = p ++ s ∧ s.length = k ∧ s.Sorted (· ≤ ·) ∧ ∀ x ∈ p, ∀ y ∈ s, x ≤ y

/-- The value one iteration of the reduce loop adds to `sum` for the pair `(l, r)`. -/
def absDiff32 (l r : Int) : Int :=
  if isub r l < 0 then imul (isub r l) (-1) else isub r l

/-- The reduce loop over two lists, from the accumulator `s`. -/
def sumFold (s : Int) : List Int → List Int → Int
  | l :: t1, r :: t2 => sumFold (iadd s (absDiff32 l r)) t1 t2
  | _, _ => s

/-- The exact (unbounded integer) sum of the absolute differences of two lists, by position. -/
def exactSum (L R : List Int) : Int := (List.zipWith (fun l r => |r - l|) L R).sum

/-- The input does not continue with a digit. -/
def NoDigitHead : List Char → Prop
  | [] => True
  | c :: _ => isdigit c = false

/-! ## The reduce loop with overflow detection -/

/-- An exact arithmetic result as an `int`: `none` when it is outside the range. -/
def checked (x : Int) : Option Int :=
  if INT_MIN ≤ x ∧ x ≤ INT_MAX then some x else none

/-- The body of the reduce loop (lines 47-53) with the subtraction, the
multiplication by -1 and the addition each checked for overflow. -/
def reduceStepChecked (array1 array2 : List Int) (i : Nat) (sum : Int) : Option Int :=
  match rd array2 i, rd array1 i with
  | some r, some l =>
    match checked (r - l) with
    | none => none
    | some difference =>
      match (if difference < 0 then checked (difference * -1) else some difference) with
      | none => none
      | some difference => checked (sum + difference)
  | _, _ => none

/-- The reduce loop (lines 43-54) with every arithmetic operation checked for
overflow. -/
def reduceLoopChecked (array1 array2 : List Int) : Option Int :=
  forLoop 1000 (reduceStepChecked array1 array2) 0

/-! ## Inputs without a record -/

/-- The text does not begin, after white space, with an integer: the first `%d`
conversion fails. -/
def NoLeadingInt (file : List Char) : Prop :=
  ∀ v rest, scanInt file ≠ Conv.ok v rest

/-! ## The line-by-line reading of the specification

The specification describes the reader as working line by line. The definitions
below follow those words, to be compared with `reader`. -/

/-- The lines of a text: the runs of characters ended by a newline, and the run
after the last newline when it is not empty. `cur` is the current line, reversed. -/
def splitLinesAux (cur : List Char) : List Char → List (List Char)
  | [] => if cur = [] then [] else [cur.reverse]
  | c :: cs => if c = '\n' then cur.reverse :: splitLinesAux [] cs else splitLinesAux (c :: cur) cs

/-- The lines of a text. -/
def splitLines (text : List Char) : List (List Char) := splitLinesAux [] text

/-- The two integers a line yields, if it begins with two integers. -/
def lineRecord (line : List Char) : Option (Int × Int) :=
  match scanInt line with
  | Conv.ok v1 rest =>
    match scanInt rest with
    | Conv.ok v2 _ => some (v1, v2)
    | _ => none
  | _ => none

/-- The pairs of the lines that precede the first line which does not yield two
integers. -/
def lineRecords : List (List Char) → List (Int × Int)
  | [] => []
  | line :: rest =>
    match lineRecord line with
    | some p => p :: lineRecords rest
    | none => []

/-- The records of a text read line by line, as the specification words it: the
pairs of the lines before the first line that does not yield two integers, or the
first 1000 of them. -/
def specLineReader (text : List Char) : List (Int × Int) :=
  (lineRecords (splitLines text)).take 1000

/-- A text whose first line holds one integer and whose second line holds another. -/
def crossLineText : List Char := "1\n2\n".toList

/-- Two records with negative values. -/
def negativeRecords : List (Int × Int) := [(-5, 3), (2, -7)]

/-! ## Lemmas -/

theorem swapStep_append (pre : List Int) (x y : Int) (t : List Int) :
    swapStep pre.length (pre ++ x :: y :: t) =
      some (pre ++ (if x > y then y :: x :: t else x :: y :: t)) := by
  have h1 : rd (pre ++ x :: y :: t) pre.length = some x := by
    unfold rd
    rw [List.getElem?_append_right (Nat.le_refl _)]
    simp
  have h2 : rd (pre ++ x :: y :: t) (pre.length + 1) = some y := by
    unfold rd
    rw [List.getElem?_append_right (Nat.le_succ _)]
    simp
  unfold swapStep
  rw [h1, h2]
  by_cases h : x > y
  · simp [h, wr, List.set_append]
  · simp [h]

theorem forLoopFrom_swapStep (t : List Int) :
    ∀ (pre : List Int) (c : Int),
      forLoopFrom swapStep t.length pre.length (pre ++ c :: t) = some (pre ++ bubbleAux c t) := by
  induction t with
  | nil => intro pre c; simp [forLoopFrom, bubbleAux]
  | cons y t ih =>
    intro pre c
    simp only [List.length_cons, forLoopFrom, swapStep_append]
    by_cases h : c > y
    · have := ih (pre ++ [y]) c
      simp only [List.length_append, List.length_singleton, List.append_assoc,
        List.singleton_append] at this
      simp [h, bubbleAux, this]
    · have := ih (pre ++ [c]) y
      simp only [List.length_append, List.length_singleton, List.append_assoc,
        List.singleton_append] at this
      simp [h, bubbleAux, this]

theorem bubbleAux_length (t : List Int) : ∀ c, (bubbleAux c t).length = t.length + 1 := by
  induction t with
  | nil => intro c; simp [bubbleAux]
  | cons y t ih => intro c; simp only [bubbleAux]; split <;> simp [ih]

theorem bubble_length (a : List Int) : (bubble a).length = a.length := by
  cases a with
  | nil => rfl
  | cons c t => simp [bubble, bubbleAux_length]

theorem innerLoop_eq (a : List Int) (h : a.length = 1000) : innerLoop a = some (bubble a) := by
  cases a with
  | nil => simp at h
  | cons c t =>
    have ht : t.length = 999 := by simpa using h
    have := forLoopFrom_swapStep t [] c
    rw [ht] at this
    simpa [innerLoop, forLoop, bubble] using this

theorem forLoopFrom_innerLoop (n : Nat) :
    ∀ (start : Nat) (a : List Int), a.length = 1000 →
      forLoopFrom (fun _ s => innerLoop s) n start a = some (bubble^[n] a) := by
  induction n with
  | zero => intro start a _; simp [forLoopFrom]
  | succ n ih =>
    intro start a h
    simp only [forLoopFrom, innerLoop_eq a h, Function.iterate_succ, Function.comp_apply]
    exact ih (start + 1) (bubble a) (by rw [bubble_length, h])

theorem sortArray_eq_iterate (a : List Int) (h : a.length = 1000) :
    sortArray a = some (bubble^[1000] a) :=
  forLoopFrom_innerLoop 1000 0 a h

theorem bubbleAux_perm (t : List Int) : ∀ c, (bubbleAux c t).Perm (c :: t) := by
  induction t with
  | nil => intro c; simp [bubbleAux]
  | cons y t ih =>
    intro c
    simp only [bubbleAux]
    split
    · exact ((ih c).cons y).trans (List.Perm.swap c y t)
    · exact (ih y).cons c

theorem bubble_perm (a : List Int) : (bubble a).Perm a := by
  cases a with
  | nil => exact List.Perm.refl _
  | cons c t => exact bubbleAux_perm t c

theorem iterate_bubble_perm (n : Nat) : ∀ a : List Int, (bubble^[n] a).Perm a := by
  induction n with
  | zero => intro a; exact List.Perm.refl _
  | succ n ih =>
    intro a
    rw [Function.iterate_succ, Function.comp_apply]
    exact (ih (bubble a)).trans (bubble_perm a)

/-- A pass ends with a greatest element of what it ran over. -/
theorem bubbleAux_last (t : List Int) :
    ∀ c, ∃ q m, bubbleAux c t = q ++ [m] ∧ (∀ x ∈ q, x ≤ m) ∧ c ≤ m := by
  induction t with
  | nil => intro c; exact ⟨[], c, by simp [bubbleAux]⟩
  | cons y t ih =>
    intro c
    simp only [bubbleAux]
    split
    · next h =>
      obtain ⟨q, m, hq, hle, hc⟩ := ih c
      refine ⟨y :: q, m, by simp [hq], ?_, hc⟩
      intro x hx
      rcases List.mem_cons.1 hx with rfl | hx
      · omega
      · exact hle x hx
    · next h =>
      obtain ⟨q, m, hq, hle, hy⟩ := ih y
      refine ⟨c :: q, m, by simp [hq], ?_, by omega⟩
      intro x hx
      rcases List.mem_cons.1 hx with rfl | hx
      · omega
      · exact hle x hx

/-- A pass leaves an ascending list as it is. -/
theorem bubbleAux_sorted (s : List Int) :
    ∀ c, (c :: s).Sorted (· ≤ ·) → bubbleAux c s = c :: s := by
  induction s with
  | nil => intro c _; rfl
  | cons y s ih =>
    intro c h
    have hcy : c ≤ y := List.rel_of_sorted_cons h y (List.mem_cons_self _ _)
    have hs : (y :: s).Sorted (· ≤ ·) := h.of_cons
    simp only [bubbleAux]
    rw [if_neg (by omega), ih y hs]

/-- A pass over `c :: t ++ s` does not move the settled tail `s`. -/
theorem bubbleAux_append (t s : List Int) (hs : s.Sorted (· ≤ ·)) :
    ∀ c, (∀ x ∈ c :: t, ∀ y ∈ s, x ≤ y) → bubbleAux c (t ++ s) = bubbleAux c t ++ s := by
  induction t with
  | nil =>
    intro c h
    have : (c :: s).Sorted (· ≤ ·) :=
      List.sorted_cons.2 ⟨fun y hy => h c (List.mem_cons_self _ _) y hy, hs⟩
    simpa [bubbleAux] using bubbleAux_sorted s c this
  | cons y t ih =>
    intro c h
    have h1 := ih c (fun x hx z hz => h x (by
        rcases List.mem_cons.1 hx with rfl | hx
        · exact List.mem_cons_self _ _
        · exact List.mem_cons_of_mem _ (List.mem_cons_of_mem _ hx)) z hz)
    have h2 := ih y (fun x hx z hz => h x (List.mem_cons_of_mem _ hx) z hz)
    show bubbleAux c (y :: (t ++ s)) = bubbleAux c (y :: t) ++ s
    simp only [bubbleAux]
    split
    · rw [h1]; rfl
    · rw [h2]; rfl

theorem Settled_zero (l : List Int) : Settled 0 l :=
  ⟨l, [], by simp, rfl, List.sorted_nil, by simp⟩

theorem Settled_bubble (k : Nat) (l : List Int) (h : Settled k l) (hk : k < l.length) :
    Settled (k + 1) (bubble l) := by
  obtain ⟨p, s, rfl, hlen, hs, hps⟩ := h
  cases p with
  | nil => simp at hk; omega
  | cons c t =>
    obtain ⟨q, m, hq, hqm, -⟩ := bubbleAux_last t c
    have hperm : (q ++ [m]).Perm (c :: t) := hq ▸ bubbleAux_perm t c
    have hm : m ∈ c :: t := hperm.subset (by simp)
    have hqsub : ∀ x ∈ q, x ∈ c :: t := fun x hx => hperm.subset (by simp [hx])
    refine ⟨q, m :: s, ?_, by simp [hlen], ?_, ?_⟩
    · simp only [List.cons_append, bubble]
      rw [bubbleAux_append t s hs c hps, hq]
      simp
    · exact List.sorted_cons.2 ⟨fun y hy => hps m hm y hy, hs⟩
    · intro x hx y hy
      rcases List.mem_cons.1 hy with rfl | hy
      · exact hqm x hx
      · exact hps x (hqsub x hx) y hy

theorem Settled_iterate (k : Nat) : ∀ l : List Int, k ≤ l.length → Settled k (bubble^[k] l) := by
  induction k with
  | zero => intro l _; exact Settled_zero _
  | succ k ih =>
    intro l hk
    rw [Function.iterate_succ_apply']
    have hlen : (bubble^[k] l).length = l.length := (iterate_bubble_perm k l).length_eq
    exact Settled_bubble k _ (ih l (by omega)) (by omega)

theorem Settled_length (l : List Int) (h : Settled l.length l) : l.Sorted (· ≤ ·) := by
  obtain ⟨p, s, rfl, hlen, hs, -⟩ := h
  have : p = [] := by
    apply List.eq_nil_of_length_eq_zero
    rw [List.length_append] at hlen; omega
  simpa [this] using hs

theorem iterate_bubble_sorted (l : List Int) : (bubble^[l.length] l).Sorted (· ≤ ·) := by
  have h := Settled_iterate l.length l (Nat.le_refl _)
  have hlen : (bubble^[l.length] l).length = l.length := (iterate_bubble_perm _ l).length_eq
  exact Settled_length _ (hlen.symm ▸ h)

/-- What the sorter returns: an ascending permutation of the array. -/
theorem sortArray_spec (a : List Int) (h : a.length = 1000) :
    ∃ s, sortArray a = some s ∧ s.Sorted (· ≤ ·) ∧ s.Perm a := by
  refine ⟨bubble^[1000] a, sortArray_eq_iterate a h, ?_, iterate_bubble_perm _ a⟩
  have := iterate_bubble_sorted a
  rwa [h] at this

/-- The sorter computes the ascending rearrangement of the array. -/
theorem sortArray_eq (a : List Int) (h : a.length = 1000) :
    sortArray a = some (a.insertionSort (· ≤ ·)) := by
  obtain ⟨s, hs, hsorted, hperm⟩ := sortArray_spec a h
  rw [hs]
  congr 1
  exact List.eq_of_perm_of_sorted (hperm.trans (List.perm_insertionSort _ a).symm) hsorted
    (List.sorted_insertionSort _ a)

/-- The sorter's result, given any ascending rearrangement of the array. -/
theorem sortArray_eq_of_perm (a s : List Int) (h : a.length = 1000)
    (hs : s.Sorted (· ≤ ·)) (hp : s.Perm a) : sortArray a = some s := by
  rw [sortArray_eq a h]
  congr 1
  exact List.eq_of_perm_of_sorted ((List.perm_insertionSort _ a).trans hp.symm)
    (List.sorted_insertionSort _ a) hs

/-! ### The reduce loop as a fold -/

theorem reduceStep_append (p1 p2 t1 t2 : List Int) (l r s : Int) (hp : p1.length = p2.length) :
    reduceStep (p1 ++ l :: t1) (p2 ++ r :: t2) p1.length s = some (iadd s (absDiff32 l r)) := by
  have h1 : rd (p1 ++ l :: t1) p1.length = some l := by
    unfold rd
    rw [List.getElem?_append_right (Nat.le_refl _)]
    simp
  have h2 : rd (p2 ++ r :: t2) p1.length = some r := by
    unfold rd
    rw [hp, List.getElem?_append_right (Nat.le_refl _)]
    simp
  unfold reduceStep
  rw [h1, h2]
  rfl

theorem forLoopFrom_reduceStep (t1 : List Int) :
    ∀ (t2 p1 p2 : List Int) (s : Int), p1.length = p2.length → t1.length = t2.length →
      forLoopFrom (reduceStep (p1 ++ t1) (p2 ++ t2)) t1.length p1.length s
        = some (sumFold s t1 t2) := by
  induction t1 with
  | nil =>
    intro t2 p1 p2 s _ ht
    cases t2 with
    | nil => simp [forLoopFrom, sumFold]
    | cons r t2 => simp at ht
  | cons l t1 ih =>
    intro t2 p1 p2 s hp ht
    cases t2 with
    | nil => simp at ht
    | cons r t2 =>
      simp only [List.length_cons, forLoopFrom, reduceStep_append p1 p2 t1 t2 l r s hp]
      have := ih t2 (p1 ++ [l]) (p2 ++ [r]) (iadd s (absDiff32 l r)) (by simp [hp])
        (by simpa using ht)
      simp only [List.length_append, List.length_singleton, List.append_assoc,
        List.singleton_append] at this
      simpa [sumFold] using this

theorem reduceLoop_eq (a1 a2 : List Int) (h1 : a1.length = 1000) (h2 : a2.length = 1000) :
    reduceLoop a1 a2 = some (sumFold 0 a1 a2) := by
  have := forLoopFrom_reduceStep a1 a2 [] [] 0 rfl (by rw [h1, h2])
  rw [h1] at this
  simpa [reduceLoop, forLoop] using this

/-- Lines 24-54 on two arrays of 1000 slots. -/
theorem sortAndReduce_eq (a1 a2 : List Int) (h1 : a1.length = 1000) (h2 : a2.length = 1000) :
    sortAndReduce a1 a2
      = some (sumFold 0 (a1.insertionSort (· ≤ ·)) (a2.insertionSort (· ≤ ·))) := by
  unfold sortAndReduce
  rw [sortArray_eq a1 h1, sortArray_eq a2 h2]
  exact reduceLoop_eq _ _ (by rw [List.length_insertionSort, h1])
    (by rw [List.length_insertionSort, h2])

theorem absDiff32_comm (l r : Int) : absDiff32 l r = absDiff32 r l := by
  unfold absDiff32 isub imul wrap32
  split_ifs <;> omega

theorem sumFold_comm (t1 : List Int) : ∀ (t2 : List Int) (s : Int),
    sumFold s t1 t2 = sumFold s t2 t1 := by
  induction t1 with
  | nil => intro t2 s; cases t2 <;> rfl
  | cons l t1 ih =>
    intro t2 s
    cases t2 with
    | nil => rfl
    | cons r t2 => simp only [sumFold]; rw [absDiff32_comm l r, ih]

theorem exactSum_nonneg (L R : List Int) : 0 ≤ exactSum L R := by
  unfold exactSum
  apply List.sum_nonneg
  intro x hx
  simp only [List.mem_iff_getElem, List.getElem_zipWith] at hx
  obtain ⟨i, hi, rfl⟩ := hx
  exact abs_nonneg _

theorem absDiff32_exact (l r : Int) (h : |r - l| ≤ INT_MAX) : absDiff32 l r = |r - l| := by
  unfold INT_MAX at h
  have := abs_le.1 h
  unfold absDiff32 isub imul wrap32
  rcases abs_cases (r - l) with ⟨h1, h2⟩ | ⟨h1, h2⟩ <;> rw [h1] <;> split_ifs <;> omega

theorem sumFold_exact (t1 : List Int) : ∀ (t2 : List Int) (s : Int), 0 ≤ s →
    s + exactSum t1 t2 ≤ INT_MAX → sumFold s t1 t2 = s + exactSum t1 t2 := by
  induction t1 with
  | nil => intro t2 s _ _; cases t2 <;> simp [sumFold, exactSum]
  | cons l t1 ih =>
    intro t2 s hs h
    cases t2 with
    | nil => simp [sumFold, exactSum]
    | cons r t2 =>
      have hrest : 0 ≤ exactSum t1 t2 := exactSum_nonneg t1 t2
      have habs : 0 ≤ |r - l| := abs_nonneg _
      have hcons : exactSum (l :: t1) (r :: t2) = |r - l| + exactSum t1 t2 := by
        simp [exactSum]
      rw [hcons] at h ⊢
      have hd : absDiff32 l r = |r - l| := absDiff32_exact l r (by omega)
      have hadd : iadd s (absDiff32 l r) = s + |r - l| := by
        rw [hd]; unfold iadd wrap32; unfold INT_MAX at h; omega
      simp only [sumFold]
      rw [hadd, ih t2 (s + |r - l|) (by omega) (by omega)]
      ring

theorem exactSum_eq_sum_range (L : List Int) : ∀ (R : List Int) (n : Nat),
    L.length = n → R.length = n →
      exactSum L R = ∑ i in Finset.range n, |R.getD i 0 - L.getD i 0| := by
  induction L with
  | nil => intro R n hL _; subst hL; simp [exactSum]
  | cons l L ih =>
    intro R n hL hR
    cases R with
    | nil => subst hR; simp at hL
    | cons r R =>
      cases n with
      | zero => simp at hL
      | succ n =>
        have := ih R n (by simpa using hL) (by simpa using hR)
        rw [Finset.sum_range_succ']
        simp only [List.getD_cons_succ, List.getD_cons_zero]
        rw [← this]
        simp [exactSum, add_comm]

/-- Lines 24-54 without overflow: the exact sum over the ascending rearrangements. -/
theorem sortAndReduce_exact (a1 a2 L R : List Int)
    (h1 : a1.length = 1000) (h2 : a2.length = 1000)
    (hL : L.Sorted (· ≤ ·) ∧ L.Perm a1) (hR : R.Sorted (· ≤ ·) ∧ R.Perm a2)
    (hno : (∑ i in Finset.range 1000, |R.getD i 0 - L.getD i 0|) ≤ INT_MAX) :
    sortAndReduce a1 a2 = some (∑ i in Finset.range 1000, |R.getD i 0 - L.getD i 0|) := by
  have hLl : L.length = 1000 := hL.2.length_eq.trans h1
  have hRl : R.length = 1000 := hR.2.length_eq.trans h2
  unfold sortAndReduce
  rw [sortArray_eq_of_perm a1 L h1 hL.1 hL.2, sortArray_eq_of_perm a2 R h2 hR.1 hR.2]
  show reduceLoop L R = _
  rw [reduceLoop_eq L R hLl hRl, ← exactSum_eq_sum_range L R 1000 hLl hRl] at *
  rw [sumFold_exact L R 0 (le_refl 0) (by simpa using hno)]
  simp

theorem iadd_wrap32 (x d : Int) : iadd (wrap32 x) d = wrap32 (x + d) := by
  unfold iadd wrap32; omega

theorem sumFold_replicate (l r : Int) (n : Nat) : ∀ s : Int,
    sumFold (wrap32 s) (List.replicate n l) (List.replicate n r)
      = wrap32 (s + n * absDiff32 l r) := by
  induction n with
  | zero => intro s; simp [sumFold]
  | succ n ih =>
    intro s
    simp only [List.replicate_succ, sumFold]
    rw [iadd_wrap32, ih]
    congr 1
    push_cast
    ring

theorem insertionSort_replicate (n : Nat) (x : Int) :
    (List.replicate n x).insertionSort (· ≤ ·) = List.replicate n x :=
  List.Sorted.insertionSort_eq (List.pairwise_replicate.2 (Or.inr (le_refl x)))

/-! ### The reader on rendered records -/

theorem digitChar_props (d : Nat) (h : d < 10) :
    isdigit (digitChar d) = true ∧ digitVal (digitChar d) = d ∧
      isspace (digitChar d) = false ∧ digitChar d ≠ '-' ∧ digitChar d ≠ '+' := by
  interval_cases d <;> decide

theorem skipSpace_append (ws s : List Char) (h : ∀ c ∈ ws, isspace c = true) :
    skipSpace (ws ++ s) = skipSpace s := by
  induction ws with
  | nil => rfl
  | cons c ws ih =>
    have hc : isspace c = true := h c (List.mem_cons_self _ _)
    simp only [List.cons_append, skipSpace, hc, if_true]
    exact ih (fun x hx => h x (List.mem_cons_of_mem _ hx))

theorem scanDigits_append (ds : List Char) : ∀ (acc : Nat) (rest : List Char),
    (∀ c ∈ ds, isdigit c = true) →
      scanDigits acc (ds ++ rest)
        = scanDigits (ds.foldl (fun a c => a * 10 + digitVal c) acc) rest := by
  induction ds with
  | nil => intro acc rest _; rfl
  | cons c ds ih =>
    intro acc rest h
    have hc : isdigit c = true := h c (List.mem_cons_self _ _)
    simp only [List.cons_append, scanDigits, hc, if_true, List.foldl_cons]
    exact ih _ _ (fun x hx => h x (List.mem_cons_of_mem _ hx))

theorem scanDigits_noDigit (acc : Nat) (rest : List Char) (h : NoDigitHead rest) :
    scanDigits acc rest = (acc, rest) := by
  cases rest with
  | nil => rfl
  | cons c cs =>
    have hc : isdigit c = false := h
    simp [scanDigits, hc]

theorem renderNatFuel_digits (fuel : Nat) : ∀ n, ∀ c ∈ renderNatFuel fuel n, isdigit c = true := by
  induction fuel with
  | zero => intro n c hc; simp [renderNatFuel] at hc
  | succ fuel ih =>
    intro n c hc
    simp only [renderNatFuel] at hc
    split at hc
    · next hn =>
      rw [List.mem_singleton] at hc
      rw [hc]; exact (digitChar_props n hn).1
    · rcases List.mem_append.1 hc with hc | hc
      · exact ih _ c hc
      · rw [List.mem_singleton] at hc
        rw [hc]; exact (digitChar_props _ (Nat.mod_lt _ (by decide))).1

theorem renderNatFuel_value (fuel : Nat) : ∀ n, n < fuel →
    (renderNatFuel fuel n).foldl (fun a c => a * 10 + digitVal c) 0 = n := by
  induction fuel with
  | zero => intro n h; omega
  | succ fuel ih =>
    intro n h
    simp only [renderNatFuel]
    split
    · next hn => simp [(digitChar_props n hn).2.1]
    · next hn =>
      rw [List.foldl_append, ih (n / 10) (by omega)]
      simp only [List.foldl_cons, List.foldl_nil]
      rw [(digitChar_props _ (Nat.mod_lt _ (by decide))).2.1]
      omega

theorem renderNatFuel_head (fuel : Nat) : ∀ n, n < fuel →
    ∃ d ds, renderNatFuel fuel n = d :: ds ∧ isdigit d = true ∧ isspace d = false ∧
      d ≠ '-' ∧ d ≠ '+' := by
  induction fuel with
  | zero => intro n h; omega
  | succ fuel ih =>
    intro n h
    simp only [renderNatFuel]
    split
    · next hn =>
      have := digitChar_props n hn
      exact ⟨_, [], rfl, this.1, this.2.2.1, this.2.2.2.1, this.2.2.2.2⟩
    · next hn =>
      obtain ⟨d, ds, hd, h1, h2, h3, h4⟩ := ih (n / 10) (by omega)
      exact ⟨d, ds ++ [digitChar (n % 10)], by rw [hd]; rfl, h1, h2, h3, h4⟩

/-- Scanning the decimal text of a natural number gives the number back. -/
theorem scanDigits_renderNat (n : Nat) (rest : List Char) (h : NoDigitHead rest) :
    scanDigits 0 (renderNat n ++ rest) = (n, rest) := by
  unfold renderNat
  rw [scanDigits_append _ _ _ (renderNatFuel_digits _ n),
    renderNatFuel_value _ n (Nat.lt_succ_self n), scanDigits_noDigit _ _ h]

/-- A `%d` conversion on the decimal text of `v` reads `v` (reduced to 32 bits). -/
theorem scanInt_renderInt (v : Int) (rest : List Char) (h : NoDigitHead rest) :
    scanInt (renderInt v ++ rest) = Conv.ok (wrap32 v) rest := by
  obtain ⟨d, ds, hd, h1, h2, h3, h4⟩ := renderNatFuel_head _ v.natAbs (Nat.lt_succ_self _)
  have hscan := scanDigits_renderNat v.natAbs rest h
  have hd2 : renderNat v.natAbs = d :: ds := hd
  unfold renderInt
  split
  · next hv =>
    have hval : -((v.natAbs : Nat) : Int) = v := by omega
    rw [hd2] at hscan ⊢
    simp only [List.cons_append] at hscan ⊢
    unfold scanInt
    simp only [skipSpace, show isspace '-' = false by decide, Bool.false_eq_true, if_false,
      decide_True, Bool.true_or, if_true, h1, hscan, hval]
  · next hv =>
    have hval : ((v.natAbs : Nat) : Int) = v := by omega
    rw [hd2] at hscan ⊢
    simp only [List.cons_append] at hscan ⊢
    unfold scanInt
    simp only [skipSpace, h2, Bool.false_eq_true, if_false, h3, h4, decide_False, Bool.or_self,
      h1, if_true, hscan, hval]

theorem wrap32_of_inRange (v : Int) (h : InRange v) : wrap32 v = v := by
  unfold InRange INT_MIN INT_MAX at h
  unfold wrap32; omega

theorem scanInt_space_append (ws s : List Char) (h : ∀ c ∈ ws, isspace c = true) :
    scanInt (ws ++ s) = scanInt s := by
  unfold scanInt
  rw [skipSpace_append ws s h]

theorem skipSpace_idem (s : List Char) : skipSpace (skipSpace s) = skipSpace s := by
  induction s with
  | nil => rfl
  | cons c cs ih =>
    simp only [skipSpace]
    split
    · exact ih
    · next h => simp [skipSpace, h]

theorem scanInt_skipSpace (s : List Char) : scanInt (skipSpace s) = scanInt s := by
  unfold scanInt
  rw [skipSpace_idem]

theorem noDigitHead_of_space (c : Char) (cs : List Char) (h : isspace c = true) :
    NoDigitHead (c :: cs) := by
  show isdigit c = false
  unfold isspace at h
  simp only [Bool.or_eq_true, decide_eq_true_eq] at h
  rcases h with ((((h | h) | h) | h) | h) | h <;> subst h <;> decide

/-- One call of `fscanf` on a well-formed record reads it into slot `index`. -/
theorem fscanf2_record (gap ws tail : List Char) (p : Int × Int) (pre1 pre2 post1 post2 : List Int)
    (x1 x2 : Int) (hgap : IsGap gap) (hws : ∀ c ∈ ws, isspace c = true)
    (hp : RecordInRange p) (hpre : pre1.length = pre2.length) :
    fscanf2 { file := ws ++ (renderRecord gap p ++ tail), array1 := pre1 ++ x1 :: post1,
              array2 := pre2 ++ x2 :: post2, index := pre1.length }
      = some (2, { file := '\n' :: tail, array1 := pre1 ++ p.1 :: post1,
                   array2 := pre2 ++ p.2 :: post2, index := pre1.length }) := by
  obtain ⟨g, gs, rfl⟩ := List.exists_cons_of_ne_nil hgap.1
  have hg : isspace g = true := hgap.2 g (List.mem_cons_self _ _)
  have e1 : scanInt (ws ++ (renderRecord (g :: gs) p ++ tail))
      = Conv.ok p.1 ((g :: gs) ++ (renderInt p.2 ++ '\n' :: tail)) := by
    rw [scanInt_space_append _ _ hws]
    have := scanInt_renderInt p.1 ((g :: gs) ++ (renderInt p.2 ++ '\n' :: tail))
      (noDigitHead_of_space g _ hg)
    rw [wrap32_of_inRange _ hp.1] at this
    rw [← this]
    simp [renderRecord]
  have e2 : scanInt (skipSpace ((g :: gs) ++ (renderInt p.2 ++ '\n' :: tail)))
      = Conv.ok p.2 ('\n' :: tail) := by
    rw [scanInt_skipSpace, scanInt_space_append _ _ hgap.2]
    have := scanInt_renderInt p.2 ('\n' :: tail) (noDigitHead_of_space '\n' _ (by decide))
    rw [wrap32_of_inRange _ hp.2] at this
    exact this
  unfold fscanf2
  simp only [e1, e2]
  rw [if_pos (by simp [hpre])]
  simp [hpre]

/-- At the end of the input `fscanf` returns `EOF` and stores nothing. -/
theorem fscanf2_end (ws : List Char) (a1 a2 : List Int) (index : Nat)
    (hws : ∀ c ∈ ws, isspace c = true) (h1 : index < a1.length) (h2 : index < a2.length) :
    fscanf2 { file := ws, array1 := a1, array2 := a2, index := index }
      = some (EOF, { file := [], array1 := a1, array2 := a2, index := index }) := by
  have e : scanInt ws = Conv.inputFail := by
    have := scanInt_space_append ws [] hws
    rw [List.append_nil] at this
    rw [this]; rfl
  unfold fscanf2
  simp only [e]
  rw [if_pos ⟨h1, h2⟩]

/-- The read loop on records that do not fill the arrays: it stops at the end of
the input, with the records in the first slots and the other slots untouched. -/
theorem readLoop_eof (gap : List Char) (hgap : IsGap gap) (recs : List (Int × Int)) :
    ∀ (fuel : Nat) (ws : List Char) (pre1 pre2 post1 post2 : List Int),
      (∀ p ∈ recs, RecordInRange p) → (∀ c ∈ ws, isspace c = true) →
      pre1.length = pre2.length → post1.length = post2.length →
      recs.length < post1.length → pre1.length + post1.length = 1000 → recs.length < fuel →
      readLoop fuel { file := ws ++ render gap recs, array1 := pre1 ++ post1,
                      array2 := pre2 ++ post2, index := pre1.length }
        = some { file := [], array1 := pre1 ++ (recs.map Prod.fst ++ post1.drop recs.length),
                 array2 := pre2 ++ (recs.map Prod.snd ++ post2.drop recs.length),
                 index := pre1.length + recs.length } := by
  induction recs with
  | nil =>
    intro fuel ws pre1 pre2 post1 post2 _ hws hpre hpost hlen _ hfuel
    obtain ⟨fuel, rfl⟩ : ∃ f, fuel = f + 1 := ⟨fuel - 1, by simp at hfuel; omega⟩
    simp only [render, List.append_nil, readLoop]
    rw [fscanf2_end ws _ _ _ hws (by simp at hlen ⊢; omega)
      (by simp at hlen ⊢; omega)]
    simp [EOF]
  | cons p ps ih =>
    intro fuel ws pre1 pre2 post1 post2 hr hws hpre hpost hlen htot hfuel
    obtain ⟨fuel, rfl⟩ : ∃ f, fuel = f + 1 := ⟨fuel - 1, by omega⟩
    cases post1 with
    | nil => simp at hlen
    | cons x1 post1 =>
      cases post2 with
      | nil => simp at hpost
      | cons x2 post2 =>
        simp only [List.length_cons] at hlen htot hfuel hpost
        simp only [render, readLoop]
        rw [fscanf2_record gap ws _ p pre1 pre2 post1 post2 x1 x2 hgap hws
          (hr p (List.mem_cons_self _ _)) hpre]
        simp only [if_true]
        rw [if_neg (by simp; omega)]
        have := ih fuel ['\n'] (pre1 ++ [p.1]) (pre2 ++ [p.2]) post1 post2
          (fun q hq => hr q (List.mem_cons_of_mem _ hq)) (by simp [isspace])
          (by simp [hpre]) (by omega) (by omega) (by simp; omega) (by omega)
        simp only [List.length_append, List.length_singleton, List.append_assoc,
          List.singleton_append] at this
        rw [this]
        simp [Nat.add_assoc, Nat.add_comm 1]

/-- The read loop on records that fill the arrays: it stops by the `break` after
storing the last of them, whatever follows in the input. -/
theorem readLoop_full (gap : List Char) (hgap : IsGap gap) (recs : List (Int × Int)) :
    ∀ (fuel : Nat) (ws tail : List Char) (pre1 pre2 post1 post2 : List Int),
      (∀ p ∈ recs, RecordInRange p) → (∀ c ∈ ws, isspace c = true) →
      pre1.length = pre2.length → post1.length = recs.length → post2.length = recs.length →
      recs ≠ [] → pre1.length + recs.length = 1000 → recs.length ≤ fuel →
      readLoop fuel { file := ws ++ (render gap recs ++ tail), array1 := pre1 ++ post1,
                      array2 := pre2 ++ post2, index := pre1.length }
        = some { file := '\n' :: tail, array1 := pre1 ++ recs.map Prod.fst,
                 array2 := pre2 ++ recs.map Prod.snd, index := 1000 } := by
  induction recs with
  | nil => intro _ _ _ _ _ _ _ _ _ _ _ _ h; exact absurd rfl h
  | cons p ps ih =>
    intro fuel ws tail pre1 pre2 post1 post2 hr hws hpre hpost1 hpost2 _ htot hfuel
    obtain ⟨fuel, rfl⟩ : ∃ f, fuel = f + 1 := ⟨fuel - 1, by simp at hfuel; omega⟩
    cases post1 with
    | nil => simp at hpost1
    | cons x1 post1 =>
      cases post2 with
      | nil => simp at hpost2
      | cons x2 post2 =>
        simp only [List.length_cons] at hpost1 hpost2 htot hfuel
        simp only [render, readLoop, List.append_assoc]
        rw [fscanf2_record gap ws _ p pre1 pre2 post1 post2 x1 x2 hgap hws
          (hr p (List.mem_cons_self _ _)) hpre]
        simp only [if_true]
        by_cases hps : ps = []
        · subst hps
          simp only [List.length_nil] at hpost1 hpost2 htot
          have e1 : post1 = [] := List.eq_nil_of_length_eq_zero (by omega)
          have e2 : post2 = [] := List.eq_nil_of_length_eq_zero (by omega)
          subst e1; subst e2
          rw [if_pos (by simp; omega)]
          simp [render]
          omega
        · have hpslen : 0 < ps.length := List.length_pos.2 hps
          rw [if_neg (by simp; omega)]
          have := ih fuel ['\n'] tail (pre1 ++ [p.1]) (pre2 ++ [p.2]) post1 post2
            (fun q hq => hr q (List.mem_cons_of_mem _ hq)) (by simp [isspace])
            (by simp [hpre]) (by omega) (by omega) hps (by simp; omega) (by omega)
          simp only [List.length_append, List.length_singleton, List.append_assoc,
            List.singleton_append] at this
          rw [this]
          simp

theorem render_append (gap : List Char) (r1 r2 : List (Int × Int)) :
    render gap (r1 ++ r2) = render gap r1 ++ render gap r2 := by
  induction r1 with
  | nil => rfl
  | cons p ps ih => simp [render, ih]

/-- The reader on fewer than 1000 well-formed records. -/
theorem reader_short (gap : List Char) (hgap : IsGap gap) (recs : List (Int × Int))
    (init1 init2 : List Int) (hr : ∀ p ∈ recs, RecordInRange p)
    (h1 : init1.length = 1000) (h2 : init2.length = 1000) (hN : recs.length < 1000) :
    reader (render gap recs) init1 init2
      = some { file := [], array1 := recs.map Prod.fst ++ init1.drop recs.length,
               array2 := recs.map Prod.snd ++ init2.drop recs.length,
               index := recs.length } := by
  have := readLoop_eof gap hgap recs 1000 [] [] [] init1 init2 hr (by simp) rfl
    (by rw [h1, h2]) (by rw [h1]; exact hN) (by simp [h1]) hN
  simpa [reader] using this

/-- The reader on at least 1000 well-formed records. -/
theorem reader_long (gap : List Char) (hgap : IsGap gap) (recs : List (Int × Int))
    (init1 init2 : List Int) (hr : ∀ p ∈ recs, RecordInRange p)
    (h1 : init1.length = 1000) (h2 : init2.length = 1000) (hN : 1000 ≤ recs.length) :
    reader (render gap recs) init1 init2
      = some { file := '\n' :: render gap (recs.drop 1000),
               array1 := (recs.take 1000).map Prod.fst,
               array2 := (recs.take 1000).map Prod.snd,
               index := 1000 } := by
  have hlen : (recs.take 1000).length = 1000 := by
    rw [List.length_take]; omega
  have hne : recs.take 1000 ≠ [] := by
    intro h; rw [h] at hlen; simp at hlen
  have := readLoop_full gap hgap (recs.take 1000) 1000 [] (render gap (recs.drop 1000))
    [] [] init1 init2 (fun p hp => hr p (List.mem_of_mem_take hp)) (by simp) rfl
    (by rw [h1, hlen]) (by rw [h2, hlen]) hne (by simp [hlen]) (by rw [hlen])
  rw [← render_append, List.take_append_drop] at this
  simpa [reader] using this

theorem sumFold_append (p1 : List Int) : ∀ (p2 t1 t2 : List Int) (s : Int),
    p1.length = p2.length →
      sumFold s (p1 ++ t1) (p2 ++ t2) = sumFold (sumFold s p1 p2) t1 t2 := by
  induction p1 with
  | nil =>
    intro p2 t1 t2 s h
    cases p2 with
    | nil => simp [sumFold]
    | cons r p2 => simp at h
  | cons l p1 ih =>
    intro p2 t1 t2 s h
    cases p2 with
    | nil => simp at h
    | cons r p2 =>
      simp only [List.cons_append, sumFold]
      exact ih p2 t1 t2 _ (by simpa using h)

/-- A bound on the exact sum when every value of both lists is at most `B` in
absolute value. -/
theorem sum_abs_le (L R : List Int) (B : Int) (n : Nat) (hB : 0 ≤ B)
    (hL : ∀ x ∈ L, |x| ≤ B) (hR : ∀ x ∈ R, |x| ≤ B) :
    (∑ i in Finset.range n, |R.getD i 0 - L.getD i 0|) ≤ n * (2 * B) := by
  have hget : ∀ (A : List Int), (∀ x ∈ A, |x| ≤ B) → ∀ i, |A.getD i 0| ≤ B := by
    intro A hA i
    by_cases hi : i < A.length
    · rw [List.getD_eq_getElem _ _ hi]
      exact hA _ (List.getElem_mem _)
    · rw [List.getD_eq_default _ _ (by omega)]
      simpa using hB
  have hterm : ∀ i ∈ Finset.range n, |R.getD i 0 - L.getD i 0| ≤ 2 * B := by
    intro i _
    have a := hget L hL i
    have b := hget R hR i
    have := abs_sub (R.getD i 0) (L.getD i 0)
    linarith
  have := Finset.sum_le_card_nsmul (Finset.range n) _ (2 * B) hterm
  simpa using this

theorem descending_length : descending.length = 1000 := by
  unfold descending
  rw [List.length_map, List.length_range]

theorem threes_one_length : (List.replicate 999 (3 : Int) ++ [1]).length = 1000 := by
  rw [List.length_append, List.length_replicate]
  rfl

theorem zeros_length : zeros.length = 1000 := List.length_replicate _ _

theorem ones_length : ones.length = 1000 := List.length_replicate _ _

theorem isGap_space : IsGap [' '] := by
  refine ⟨by simp, ?_⟩
  intro c hc
  rw [List.mem_singleton] at hc
  rw [hc]; decide

theorem sampleText_eq : sampleText = render [' '] sampleRecords := by decide

theorem inRange_small (v : Int) (h0 : 0 ≤ v) (h1 : v ≤ 2147483647) : InRange v := by
  unfold InRange INT_MIN INT_MAX; omega

theorem sampleRecords_inRange : ∀ p ∈ sampleRecords, RecordInRange p := by
  intro p hp
  simp only [sampleRecords, List.mem_cons, List.mem_singleton, List.not_mem_nil, or_false] at hp
  rcases hp with rfl | rfl | rfl | rfl | rfl | rfl <;>
    exact ⟨inRange_small _ (by decide) (by decide), inRange_small _ (by decide) (by decide)⟩

theorem replicate_inRange (n : Nat) (p : Int × Int) (hp : RecordInRange p) :
    ∀ q ∈ List.replicate n p, RecordInRange q := by
  intro q hq
  rw [List.eq_of_mem_replicate hq]; exact hp

/-- Lines 24-54 on two arrays that are some values followed by a constant padding
not above any of them. -/
theorem sortAndReduce_padded (xs ys sx sy : List Int) (c1 c2 : Int) (k : Nat)
    (hx : sx.Sorted (· ≤ ·) ∧ sx.Perm xs) (hy : sy.Sorted (· ≤ ·) ∧ sy.Perm ys)
    (hc1 : ∀ x ∈ sx, c1 ≤ x) (hc2 : ∀ y ∈ sy, c2 ≤ y)
    (hxl : xs.length + k = 1000) (hyl : ys.length + k = 1000) :
    sortAndReduce (xs ++ List.replicate k c1) (ys ++ List.replicate k c2)
      = some (sumFold (wrap32 (0 + k * absDiff32 c1 c2)) sx sy) := by
  have pad : ∀ (zs sz : List Int) (c : Int), sz.Sorted (· ≤ ·) ∧ sz.Perm zs →
      (∀ z ∈ sz, c ≤ z) → zs.length + k = 1000 →
      sortArray (zs ++ List.replicate k c) = some (List.replicate k c ++ sz) := by
    intro zs sz c hz hc hl
    apply sortArray_eq_of_perm
    · rw [List.length_append, List.length_replicate]; exact hl
    · refine List.pairwise_append.2 ⟨List.pairwise_replicate.2 (Or.inr (le_refl c)), hz.1, ?_⟩
      intro a ha b hb
      rw [List.eq_of_mem_replicate ha]; exact hc b hb
    · exact List.perm_append_comm.trans (hz.2.append_right _)
  have hsl : ∀ (zs sz : List Int) (c : Int), sz.Perm zs → zs.length + k = 1000 →
      (List.replicate k c ++ sz).length = 1000 := by
    intro zs sz c hz hl
    rw [List.length_append, List.length_replicate, hz.length_eq]; omega
  unfold sortAndReduce
  rw [pad xs sx c1 hx hc1 hxl, pad ys sy c2 hy hc2 hyl]
  show reduceLoop _ _ = _
  rw [reduceLoop_eq _ _ (hsl xs sx c1 hx.2 hxl) (hsl ys sy c2 hy.2 hyl),
    sumFold_append _ _ _ _ _ (by simp), ← sumFold_replicate]
  rfl

theorem total_of_reader (file : List Char) (init1 init2 : List Int) (s : ReadState)
    (h : reader file init1 init2 = some s) :
    total file init1 init2 = sortAndReduce s.array1 s.array2 := by
  unfold total; rw [h]

theorem overflowRecords_inRange : ∀ p ∈ overflowRecords, RecordInRange p :=
  replicate_inRange _ _ ⟨inRange_small _ (by decide) (by decide),
    inRange_small _ (by decide) (by decide)⟩

theorem longRecords_inRange : ∀ p ∈ longRecords, RecordInRange p :=
  replicate_inRange _ _ ⟨inRange_small _ (by decide) (by decide),
    inRange_small _ (by decide) (by decide)⟩

theorem longRecords_length : longRecords.length = 1001 := List.length_replicate _ _

/-- What the reader leaves on `N ≤ 1000` well-formed records: `index = N`, the
records in the first `N` slots, the other slots as they were. -/
theorem reader_records (gap : List Char) (hgap : IsGap gap) (recs : List (Int × Int))
    (init1 init2 : List Int) (hr : ∀ p ∈ recs, RecordInRange p)
    (h1 : init1.length = 1000) (h2 : init2.length = 1000) (hN : recs.length ≤ 1000) :
    ∃ s, reader (render gap recs) init1 init2 = some s ∧ s.index = recs.length ∧
      s.array1 = recs.map Prod.fst ++ init1.drop recs.length ∧
      s.array2 = recs.map Prod.snd ++ init2.drop recs.length := by
  by_cases hlt : recs.length < 1000
  · exact ⟨_, reader_short gap hgap recs init1 init2 hr h1 h2 hlt, rfl, rfl, rfl⟩
  · have hlen : recs.length = 1000 := by omega
    refine ⟨_, reader_long gap hgap recs init1 init2 hr h1 h2 (by omega), hlen.symm, ?_, ?_⟩
    · show (recs.take 1000).map Prod.fst = _
      rw [List.take_of_length_le (by omega), List.drop_of_length_le (by omega),
        List.append_nil]
    · show (recs.take 1000).map Prod.snd = _
      rw [List.take_of_length_le (by omega), List.drop_of_length_le (by omega),
        List.append_nil]

/-- Any number of passes over an array of 1000 slots, as iterated list passes. -/
theorem passes_eq (k : Nat) (a : List Int) (h : a.length = 1000) :
    forLoop k (fun _ s => innerLoop s) a = some (bubble^[k] a) :=
  forLoopFrom_innerLoop k 0 a h

/-- The two parts of a settled list are its first and last positions. -/
theorem Settled_take_drop (k : Nat) (b : List Int) (h : Settled k b) :
    (b.drop (b.length - k)).Sorted (· ≤ ·) ∧
      ∀ x ∈ b.take (b.length - k), ∀ y ∈ b.drop (b.length - k), x ≤ y := by
  obtain ⟨p, s, rfl, hlen, hs, hps⟩ := h
  have e : (p ++ s).length - k = p.length := by
    rw [List.length_append, hlen]; omega
  rw [e, List.take_left' rfl, List.drop_left' rfl]
  exact ⟨hs, hps⟩

/-- The read loop never faults on arrays of 1000 slots: with enough fuel it returns,
the arrays keep their size and `index` stays at most 1000. -/
theorem readLoop_total (fuel : Nat) : ∀ s : ReadState,
    s.array1.length = 1000 → s.array2.length = 1000 → s.index < 1000 →
    1000 - s.index ≤ fuel →
      ∃ t, readLoop fuel s = some t ∧ t.array1.length = 1000 ∧ t.array2.length = 1000 ∧
        t.index ≤ 1000 := by
  induction fuel with
  | zero => intro s _ _ hi hf; omega
  | succ fuel ih =>
    intro s h1 h2 hi hf
    have hstep : ∃ ret s1, fscanf2 s = some (ret, s1) ∧ s1.array1.length = 1000 ∧
        s1.array2.length = 1000 ∧ s1.index = s.index := by
      unfold fscanf2
      rw [if_pos ⟨by omega, by omega⟩]
      cases scanInt s.file with
      | inputFail => exact ⟨_, _, rfl, h1, h2, rfl⟩
      | matchFail rest => exact ⟨_, _, rfl, h1, h2, rfl⟩
      | ok v1 rest1 =>
        simp only
        cases scanInt (skipSpace rest1) with
        | inputFail => exact ⟨_, _, rfl, by simp [h1], h2, rfl⟩
        | matchFail rest2 => exact ⟨_, _, rfl, by simp [h1], h2, rfl⟩
        | ok v2 rest2 => exact ⟨_, _, rfl, by simp [h1], by simp [h2], rfl⟩
    obtain ⟨ret, s1, hs1, l1, l2, hidx⟩ := hstep
    simp only [readLoop, hs1]
    by_cases hret : ret = 2
    · rw [if_pos hret]
      by_cases hbreak : s1.index + 1 ≥ 1000
      · rw [if_pos hbreak]
        exact ⟨_, rfl, l1, l2, by simp; omega⟩
      · rw [if_neg hbreak]
        exact ih _ l1 l2 (by simp; omega) (by simp; omega)
    · rw [if_neg hret]
      exact ⟨_, rfl, l1, l2, by omega⟩

/-- The reader never faults on arrays of 1000 slots, whatever the text. -/
theorem reader_total (file : List Char) (init1 init2 : List Int)
    (h1 : init1.length = 1000) (h2 : init2.length = 1000) :
    ∃ t, reader file init1 init2 = some t ∧ t.array1.length = 1000 ∧
      t.array2.length = 1000 ∧ t.index ≤ 1000 :=
  readLoop_total 1000 _ h1 h2 (Nat.succ_pos 999) (Nat.sub_le 1000 0)

/-! ### The output text -/

theorem digitChar_eq (d : Nat) (h : d < 10) : Nat.digitChar d = digitChar d := by
  interval_cases d <;> decide

theorem toDigitsCore_eq (fuel : Nat) : ∀ (n : Nat) (ds : List Char), n < fuel →
    Nat.toDigitsCore 10 fuel n ds = renderNatFuel fuel n ++ ds := by
  induction fuel with
  | zero => intro n ds h; omega
  | succ fuel ih =>
    intro n ds h
    simp only [Nat.toDigitsCore, renderNatFuel]
    rw [digitChar_eq _ (Nat.mod_lt _ (by decide))]
    by_cases hn : n < 10
    · rw [if_pos (by omega), if_pos hn, Nat.mod_eq_of_lt hn]
      rfl
    · rw [if_neg (by omega), if_neg hn, ih _ _ (by omega)]
      simp

/-- The digits of `renderNat` are those of the library's decimal representation. -/
theorem renderNat_eq_repr (n : Nat) : renderNat n = (toString n).toList := by
  show renderNat n = Nat.toDigits 10 n
  unfold renderNat Nat.toDigits
  rw [toDigitsCore_eq _ _ _ (Nat.lt_succ_self n), List.append_nil]

/-- The text of `renderInt` is the library's decimal representation of the integer. -/
theorem renderInt_eq_repr (v : Int) : renderInt v = (toString v).toList := by
  unfold renderInt
  cases v with
  | ofNat m =>
    rw [if_neg (by simp)]
    exact renderNat_eq_repr m
  | negSucc m =>
    rw [if_pos (Int.negSucc_lt_zero m)]
    show '-' :: renderNat (m + 1) = ("-" ++ toString (m + 1)).toList
    rw [renderNat_eq_repr]
    rfl

theorem main_some (file : List Char) (init1 init2 : List Int) :
    main (some file) init1 init2
      = (total file init1 init2).map (fun sum => (printf sum, 0)) := by
  unfold main
  cases h : total file init1 init2 <;> simp [h]

/-! ### Equal arrays, inputs without a record, overflow checks -/

theorem absDiff32_self (x : Int) : absDiff32 x x = 0 := by
  unfold absDiff32 isub imul wrap32
  split_ifs <;> omega

theorem sumFold_self (l : List Int) : sumFold 0 l l = 0 := by
  induction l with
  | nil => rfl
  | cons x l ih =>
    simp only [sumFold]
    rw [absDiff32_self, show iadd 0 0 = 0 by decide]
    exact ih

theorem insertionSort_eq_of_perm (a b : List Int) (h : a.Perm b) :
    a.insertionSort (· ≤ ·) = b.insertionSort (· ≤ ·) :=
  List.eq_of_perm_of_sorted
    (((List.perm_insertionSort _ _).trans h).trans (List.perm_insertionSort _ _).symm)
    (List.sorted_insertionSort _ _) (List.sorted_insertionSort _ _)

/-- Lines 24-54 on two arrays holding the same values give 0. -/
theorem sortAndReduce_perm (a1 a2 : List Int) (h1 : a1.length = 1000) (hp : a1.Perm a2) :
    sortAndReduce a1 a2 = some 0 := by
  rw [sortAndReduce_eq a1 a2 h1 (hp.length_eq.symm.trans h1), insertionSort_eq_of_perm a1 a2 hp,
    sumFold_self]

/-- The reader stores nothing when the text does not begin with an integer. -/
theorem reader_noLeadingInt (file : List Char) (init1 init2 : List Int)
    (hfile : NoLeadingInt file) (h1 : init1.length = 1000) (h2 : init2.length = 1000) :
    ∃ s, reader file init1 init2 = some s ∧ s.array1 = init1 ∧ s.array2 = init2 ∧
      s.index = 0 := by
  have hf : ∃ ret rest, ret ≠ 2 ∧
      fscanf2 { file := file, array1 := init1, array2 := init2, index := 0 }
        = some (ret, { file := rest, array1 := init1, array2 := init2, index := 0 }) := by
    unfold fscanf2
    rw [if_pos ⟨h1.symm ▸ Nat.succ_pos 999, h2.symm ▸ Nat.succ_pos 999⟩]
    cases hs : scanInt file with
    | inputFail => exact ⟨EOF, [], by decide, rfl⟩
    | matchFail rest => exact ⟨0, rest, by decide, rfl⟩
    | ok v rest => exact absurd hs (hfile v rest)
  obtain ⟨ret, rest, hret, hf⟩ := hf
  refine ⟨{ file := rest, array1 := init1, array2 := init2, index := 0 }, ?_, rfl, rfl, rfl⟩
  show readLoop (999 + 1) _ = _
  rw [readLoop, hf]
  simp only
  rw [if_neg hret]

theorem exactSum_eq_zero (L : List Int) : ∀ R : List Int, L.length = R.length →
    exactSum L R = 0 → L = R := by
  induction L with
  | nil =>
    intro R h _
    cases R with
    | nil => rfl
    | cons r R => simp at h
  | cons l L ih =>
    intro R h hz
    cases R with
    | nil => simp at h
    | cons r R =>
      have hcons : exactSum (l :: L) (r :: R) = |r - l| + exactSum L R := by
        simp [exactSum]
      rw [hcons] at hz
      have h1 : 0 ≤ |r - l| := abs_nonneg _
      have h2 : 0 ≤ exactSum L R := exactSum_nonneg L R
      have h3 : |r - l| = 0 := by omega
      have h4 : r = l := by
        have := abs_eq_zero.1 h3
        omega
      rw [h4, ih R (by simpa using h) (by omega)]

theorem checked_of_inRange (x : Int) (h1 : INT_MIN ≤ x) (h2 : x ≤ INT_MAX) :
    checked x = some x := by
  unfold checked
  rw [if_pos ⟨h1, h2⟩]

theorem reduceStepChecked_append (p1 p2 t1 t2 : List Int) (l r s : Int)
    (hp : p1.length = p2.length) (hs : 0 ≤ s) (hno : s + |r - l| ≤ INT_MAX) :
    reduceStepChecked (p1 ++ l :: t1) (p2 ++ r :: t2) p1.length s = some (s + |r - l|) := by
  have h1 : rd (p1 ++ l :: t1) p1.length = some l := by
    unfold rd
    rw [List.getElem?_append_right (Nat.le_refl _)]
    simp
  have h2 : rd (p2 ++ r :: t2) p1.length = some r := by
    unfold rd
    rw [hp, List.getElem?_append_right (Nat.le_refl _)]
    simp
  have habs : 0 ≤ |r - l| := abs_nonneg _
  have hle := abs_le.1 (show |r - l| ≤ INT_MAX by omega)
  unfold INT_MAX at hno hle
  have c1 : checked (r - l) = some (r - l) :=
    checked_of_inRange _ (by unfold INT_MIN; omega) (by unfold INT_MAX; omega)
  unfold reduceStepChecked
  rw [h1, h2]
  simp only [c1]
  by_cases hneg : r - l < 0
  · have e : |r - l| = (r - l) * -1 := by rw [abs_of_neg hneg]; ring
    rw [if_pos hneg, checked_of_inRange _ (by unfold INT_MIN; omega)
      (by unfold INT_MAX; omega)]
    simp only
    rw [← e]
    exact checked_of_inRange _ (by unfold INT_MIN; omega) (by unfold INT_MAX; omega)
  · have e : |r - l| = r - l := abs_of_nonneg (by omega)
    rw [if_neg hneg]
    simp only
    rw [e]
    exact checked_of_inRange _ (by unfold INT_MIN; omega) (by unfold INT_MAX; omega)

theorem forLoopFrom_reduceStepChecked (t1 : List Int) :
    ∀ (t2 p1 p2 : List Int) (s : Int), p1.length = p2.length → t1.length = t2.length →
      0 ≤ s → s + exactSum t1 t2 ≤ INT_MAX →
      forLoopFrom (reduceStepChecked (p1 ++ t1) (p2 ++ t2)) t1.length p1.length s
        = some (s + exactSum t1 t2) := by
  induction t1 with
  | nil =>
    intro t2 p1 p2 s _ ht _ _
    cases t2 with
    | nil => simp [forLoopFrom, exactSum]
    | cons r t2 => simp at ht
  | cons l t1 ih =>
    intro t2 p1 p2 s hp ht hs hno
    cases t2 with
    | nil => simp at ht
    | cons r t2 =>
      have hcons : exactSum (l :: t1) (r :: t2) = |r - l| + exactSum t1 t2 := by
        simp [exactSum]
      have habs : 0 ≤ |r - l| := abs_nonneg _
      have hrest : 0 ≤ exactSum t1 t2 := exactSum_nonneg t1 t2
      rw [hcons] at hno ⊢
      simp only [List.length_cons, forLoopFrom,
        reduceStepChecked_append p1 p2 t1 t2 l r s hp hs (by omega)]
      have := ih t2 (p1 ++ [l]) (p2 ++ [r]) (s + |r - l|) (by simp [hp])
        (by simpa using ht) (by omega) (by omega)
      simp only [List.length_append, List.length_singleton, List.append_assoc,
        List.singleton_append] at this
      rw [this]
      congr 1
      ring

/-- The checked reduce loop: without overflow every operation stays in range and
the result is the exact sum. -/
theorem reduceLoopChecked_eq (a1 a2 : List Int) (h1 : a1.length = 1000)
    (h2 : a2.length = 1000) (hno : exactSum a1 a2 ≤ INT_MAX) :
    reduceLoopChecked a1 a2 = some (exactSum a1 a2) := by
  have := forLoopFrom_reduceStepChecked a1 a2 [] [] 0 rfl (by rw [h1, h2]) (le_refl 0)
    (by simpa using hno)
  rw [h1] at this
  simpa [reduceLoopChecked, forLoop] using this

theorem noLeadingInt_nil : NoLeadingInt [] := by
  intro v rest h
  exact Conv.noConfusion h

theorem sortAndReduce_zeros_ones : sortAndReduce zeros ones = some 1000 := by
  unfold zeros ones
  rw [sortAndReduce_eq _ _ (List.length_replicate _ _) (List.length_replicate _ _),
    insertionSort_replicate, insertionSort_replicate]
  have := sumFold_replicate 0 1 1000 0
  rw [show wrap32 0 = 0 by decide] at this
  rw [this]
  decide

theorem descending_bound : ∀ x ∈ descending, |x| ≤ 1073741 := by
  intro x hx
  unfold descending at hx
  obtain ⟨n, hn, rfl⟩ := List.mem_map.1 hx
  have hn' : n < 1000 := List.mem_range.1 hn
  rw [abs_le]
  constructor <;> omega

/-! ### Records followed by other text -/

/-- On text that does not begin with an integer `fscanf` stores nothing and does
not return 2. -/
theorem fscanf2_noLeadingInt (ws tail : List Char) (a1 a2 : List Int) (index : Nat)
    (hws : ∀ c ∈ ws, isspace c = true) (htail : NoLeadingInt tail)
    (h1 : index < a1.length) (h2 : index < a2.length) :
    ∃ ret rest, ret ≠ 2 ∧
      fscanf2 { file := ws ++ tail, array1 := a1, array2 := a2, index := index }
        = some (ret, { file := rest, array1 := a1, array2 := a2, index := index }) := by
  unfold fscanf2
  simp only
  rw [if_pos ⟨h1, h2⟩, scanInt_space_append ws tail hws]
  cases hs : scanInt tail with
  | inputFail => exact ⟨EOF, [], by decide, rfl⟩
  | matchFail rest => exact ⟨0, rest, by decide, rfl⟩
  | ok v rest => exact absurd hs (htail v rest)

/-- The read loop on fewer than 1000 records followed by text that does not begin
with an integer: it stops there, with the records in the first slots and the other
slots untouched. -/
theorem readLoop_stop (gap tail : List Char) (hgap : IsGap gap) (htail : NoLeadingInt tail)
    (recs : List (Int × Int)) :
    ∀ (fuel : Nat) (ws : List Char) (pre1 pre2 post1 post2 : List Int),
      (∀ p ∈ recs, RecordInRange p) → (∀ c ∈ ws, isspace c = true) →
      pre1.length = pre2.length → post1.length = post2.length →
      recs.length < post1.length → pre1.length + post1.length = 1000 → recs.length < fuel →
      ∃ rest,
        readLoop fuel
            (ReadState.mk (ws ++ (render gap recs ++ tail)) (pre1 ++ post1) (pre2 ++ post2)
              pre1.length)
          = some (ReadState.mk rest
              (pre1 ++ (recs.map Prod.fst ++ post1.drop recs.length))
              (pre2 ++ (recs.map Prod.snd ++ post2.drop recs.length))
              (pre1.length + recs.length)) := by
  induction recs with
  | nil =>
    intro fuel ws pre1 pre2 post1 post2 _ hws hpre hpost hlen _ hfuel
    obtain ⟨fuel, rfl⟩ : ∃ f, fuel = f + 1 := ⟨fuel - 1, by simp at hfuel; omega⟩
    obtain ⟨ret, rest, hret, hf⟩ := fscanf2_noLeadingInt ws tail (pre1 ++ post1) (pre2 ++ post2)
      pre1.length hws htail (by simp at hlen ⊢; omega) (by simp at hlen ⊢; omega)
    refine ⟨rest, ?_⟩
    simp only [render, List.nil_append, readLoop, hf]
    rw [if_neg hret]
    simp
  | cons p ps ih =>
    intro fuel ws pre1 pre2 post1 post2 hr hws hpre hpost hlen htot hfuel
    obtain ⟨fuel, rfl⟩ : ∃ f, fuel = f + 1 := ⟨fuel - 1, by omega⟩
    cases post1 with
    | nil => simp at hlen
    | cons x1 post1 =>
      cases post2 with
      | nil => simp at hpost
      | cons x2 post2 =>
        simp only [List.length_cons] at hlen htot hfuel hpost
        obtain ⟨rest, hrest⟩ := ih fuel ['\n'] (pre1 ++ [p.1]) (pre2 ++ [p.2]) post1 post2
          (fun q hq => hr q (List.mem_cons_of_mem _ hq)) (by simp [isspace])
          (by simp [hpre]) (by omega) (by omega) (by simp; omega) (by omega)
        refine ⟨rest, ?_⟩
        simp only [render, readLoop, List.append_assoc]
        rw [fscanf2_record gap ws _ p pre1 pre2 post1 post2 x1 x2 hgap hws
          (hr p (List.mem_cons_self _ _)) hpre]
        simp only [if_true]
        rw [if_neg (by simp; omega)]
        simp only [List.length_append, List.length_singleton, List.append_assoc,
          List.singleton_append] at hrest
        rw [hrest]
        simp [Nat.add_assoc, Nat.add_comm 1]

/-- The reader on fewer than 1000 well-formed records followed by text that does
not begin with an integer. -/
theorem reader_stop (gap tail : List Char) (hgap : IsGap gap) (htail : NoLeadingInt tail)
    (recs : List (Int × Int)) (init1 init2 : List Int) (hr : ∀ p ∈ recs, RecordInRange p)
    (h1 : init1.length = 1000) (h2 : init2.length = 1000) (hN : recs.length < 1000) :
    ∃ rest,
      reader (render gap recs ++ tail) init1 init2
        = some (ReadState.mk rest (recs.map Prod.fst ++ init1.drop recs.length)
            (recs.map Prod.snd ++ init2.drop recs.length) recs.length) := by
  obtain ⟨rest, h⟩ := readLoop_stop gap tail hgap htail recs 1000 [] [] [] init1 init2 hr
    (by simp) rfl (by rw [h1, h2]) (by rw [h1]; exact hN) (by simp [h1]) hN
  exact ⟨rest, by simpa [reader] using h⟩

theorem isGap_newline : IsGap ['\n'] := by
  refine ⟨by simp, ?_⟩
  intro c hc
  rw [List.mem_singleton] at hc
  rw [hc]; decide

theorem crossLineText_eq : crossLineText = render ['\n'] [(1, 2)] := by decide

theorem negativeRecords_inRange : ∀ p ∈ negativeRecords, RecordInRange p := by
  intro p hp
  simp only [negativeRecords, List.mem_cons, List.mem_singleton, List.not_mem_nil,
    or_false] at hp
  rcases hp with rfl | rfl <;>
    exact ⟨by unfold InRange INT_MIN INT_MAX; decide, by unfold InRange INT_MIN INT_MAX; decide⟩

/-! ### Padding both arrays with the same value -/

theorem exactSum_cons (l r : Int) (L R : List Int) :
    exactSum (l :: L) (r :: R) = |r - l| + exactSum L R := by
  simp [exactSum]

theorem exactSum_comm (L : List Int) : ∀ R : List Int, exactSum L R = exactSum R L := by
  induction L with
  | nil => intro R; cases R <;> simp [exactSum]
  | cons l L ih =>
    intro R
    cases R with
    | nil => simp [exactSum]
    | cons r R => rw [exactSum_cons, exactSum_cons, ih R, abs_sub_comm]

/-- Inserting `c` into the right list only, below the head of the ascending left list. -/
theorem exactSum_insert_right (c : Int) (B : List Int) : ∀ (a : Int) (A : List Int),
    c ≤ a → (a :: A).Sorted (· ≤ ·) → A.length = B.length →
      exactSum (a :: A) (B.orderedInsert (· ≤ ·) c) = (a - c) + exactSum A B := by
  induction B with
  | nil =>
    intro a A hca _ hlen
    have hA : A = [] := List.eq_nil_of_length_eq_zero hlen
    subst hA
    simp only [List.orderedInsert, exactSum_cons]
    rw [abs_of_nonpos (by omega)]
    simp [exactSum]
  | cons b B ih =>
    intro a A hca hs hlen
    cases A with
    | nil => simp at hlen
    | cons a2 A =>
      have haa : a ≤ a2 := List.rel_of_sorted_cons hs a2 (List.mem_cons_self _ _)
      have hs2 : (a2 :: A).Sorted (· ≤ ·) := hs.of_cons
      simp only [List.orderedInsert]
      split
      · rw [exactSum_cons, abs_of_nonpos (by omega)]
        ring
      · next hcb =>
        rw [exactSum_cons, ih a2 A (by omega) hs2 (by simpa using hlen), exactSum_cons,
          abs_of_nonpos (by omega), abs_of_nonpos (by omega)]
        ring

/-- Inserting the same value into two ascending lists of equal length does not
change the sum of the absolute differences by position. -/
theorem exactSum_insert (c : Int) (A : List Int) : ∀ B : List Int,
    A.Sorted (· ≤ ·) → B.Sorted (· ≤ ·) → A.length = B.length →
      exactSum (A.orderedInsert (· ≤ ·) c) (B.orderedInsert (· ≤ ·) c) = exactSum A B := by
  induction A with
  | nil =>
    intro B _ _ hlen
    have hB : B = [] := List.eq_nil_of_length_eq_zero hlen.symm
    subst hB
    simp [exactSum]
  | cons a A ih =>
    intro B hA hB hlen
    cases B with
    | nil => simp at hlen
    | cons b B =>
      have hlen2 : A.length = B.length := by simpa using hlen
      by_cases hca : c ≤ a
      · by_cases hcb : c ≤ b
        · simp only [List.orderedInsert, if_pos hca, if_pos hcb]
          rw [exactSum_cons]
          simp
        · have h1 := exactSum_insert_right c B a A hca hA hlen2
          have e1 : |b - c| = c - b := by rw [abs_of_nonpos (by omega)]; ring
          have e2 : |b - a| = a - b := by rw [abs_of_nonpos (by omega)]; ring
          simp only [List.orderedInsert, if_pos hca, if_neg hcb]
          rw [exactSum_cons, h1, exactSum_cons, e1, e2]
          ring
      · by_cases hcb : c ≤ b
        · have h1 := exactSum_insert_right c A b B hcb hB hlen2.symm
          rw [exactSum_comm, exactSum_comm B A] at h1
          have e1 : |c - a| = c - a := abs_of_nonneg (by omega)
          have e2 : |b - a| = b - a := abs_of_nonneg (by omega)
          simp only [List.orderedInsert, if_neg hca, if_pos hcb]
          rw [exactSum_cons, h1, exactSum_cons, e1, e2]
          ring
        · simp only [List.orderedInsert, if_neg hca, if_neg hcb]
          rw [exactSum_cons, exactSum_cons, ih B hA.of_cons hB.of_cons hlen2]

/-- The ascending list `A` with `k` copies of `c` inserted. -/
theorem insert_iterate_spec (c : Int) (k : Nat) : ∀ A : List Int, A.Sorted (· ≤ ·) →
    ((List.orderedInsert (· ≤ ·) c)^[k] A).Sorted (· ≤ ·) ∧
      ((List.orderedInsert (· ≤ ·) c)^[k] A).Perm (A ++ List.replicate k c) := by
  induction k with
  | zero => intro A hA; exact ⟨hA, by simp⟩
  | succ k ih =>
    intro A hA
    rw [Function.iterate_succ_apply']
    obtain ⟨hs, hp⟩ := ih A hA
    refine ⟨hs.orderedInsert c _, ?_⟩
    have h1 := List.perm_orderedInsert (· ≤ ·) c ((List.orderedInsert (· ≤ ·) c)^[k] A)
    have h2 : (c :: (A ++ List.replicate k c)).Perm (A ++ List.replicate (k + 1) c) := by
      rw [List.replicate_succ]
      exact (List.perm_middle).symm
    exact (h1.trans (hp.cons c)).trans h2

theorem exactSum_insert_iterate (c : Int) (k : Nat) : ∀ A B : List Int,
    A.Sorted (· ≤ ·) → B.Sorted (· ≤ ·) → A.length = B.length →
      exactSum ((List.orderedInsert (· ≤ ·) c)^[k] A) ((List.orderedInsert (· ≤ ·) c)^[k] B)
        = exactSum A B := by
  induction k with
  | zero => intro A B _ _ _; rfl
  | succ k ih =>
    intro A B hA hB hlen
    rw [Function.iterate_succ_apply', Function.iterate_succ_apply']
    have sa := insert_iterate_spec c k A hA
    have sb := insert_iterate_spec c k B hB
    rw [exactSum_insert c _ _ sa.1 sb.1
      (by rw [sa.2.length_eq, sb.2.length_eq, List.length_append, List.length_append, hlen]),
      ih A B hA hB hlen]

/-- Lines 24-54 on two columns of equal length, each padded by the same number of
copies of one value up to 1000 slots: without overflow the result is the exact sum
over the sorted columns alone. -/
theorem sortAndReduce_same_padding (xs ys L R : List Int) (c : Int) (k : Nat)
    (hL : L.Sorted (· ≤ ·) ∧ L.Perm xs) (hR : R.Sorted (· ≤ ·) ∧ R.Perm ys)
    (hxl : xs.length + k = 1000) (hyl : ys.length + k = 1000)
    (hno : exactSum L R ≤ INT_MAX) :
    sortAndReduce (xs ++ List.replicate k c) (ys ++ List.replicate k c)
      = some (exactSum L R) := by
  have hlen : L.length = R.length := by
    rw [hL.2.length_eq, hR.2.length_eq]; omega
  have sa := insert_iterate_spec c k L hL.1
  have sb := insert_iterate_spec c k R hR.1
  have pa := sa.2.trans (hL.2.append_right _)
  have pb := sb.2.trans (hR.2.append_right _)
  have l1 : (xs ++ List.replicate k c).length = 1000 := by
    rw [List.length_append, List.length_replicate]; exact hxl
  have l2 : (ys ++ List.replicate k c).length = 1000 := by
    rw [List.length_append, List.length_replicate]; exact hyl
  have hsum := exactSum_insert_iterate c k L R hL.1 hR.1 hlen
  have := sortAndReduce_exact _ _ _ _ l1 l2 ⟨sa.1, pa⟩ ⟨sb.1, pb⟩
    (by
      rw [← exactSum_eq_sum_range _ _ 1000 (pa.length_eq.trans l1) (pb.length_eq.trans l2),
        hsum]
      exact hno)
  rw [this, ← exactSum_eq_sum_range _ _ 1000 (pa.length_eq.trans l1) (pb.length_eq.trans l2),
    hsum]

/-! ## Properties of the program -/

/-- C1: for two arrays of 1000 slots left by the reader, let `L` and `R` be the
ascending rearrangements of `array1` and `array2`. Then `L` and `R` are what the two
sorts leave in the arrays, and the value of `sum` that lines 24-54 compute is the sum
over `i = 0..999` of `|R[i] - L[i]|`, provided there is no overflow (the exact sum
does not exceed `INT_MAX`). -/
theorem C1_total_eq_sum_abs_diff (array1 array2 L R : List Int)
    (h1 : array1.length = 1000) (h2 : array2.length = 1000)
    (hL : L.Sorted (· ≤ ·) ∧ L.Perm array1) (hR : R.Sorted (· ≤ ·) ∧ R.Perm array2)
    (hno : (∑ i in Finset.range 1000, |R.getD i 0 - L.getD i 0|) ≤ INT_MAX) :
    sortArray array1 = some L ∧ sortArray array2 = some R ∧
      sortAndReduce array1 array2
        = some (∑ i in Finset.range 1000, |R.getD i 0 - L.getD i 0|) :=
  ⟨sortArray_eq_of_perm array1 L h1 hL.1 hL.2, sortArray_eq_of_perm array2 R h2 hR.1 hR.2,
    sortAndReduce_exact array1 array2 L R h1 h2 hL hR hno⟩

/-- Witness of C1: `array1` is 999 threes followed by a one, `array2` is 1000 sevens. -/
theorem C1_total_eq_sum_abs_diff_witness :
    sortArray (List.replicate 999 3 ++ [1]) = some (1 :: List.replicate 999 3) ∧
      sortArray (List.replicate 1000 7) = some (List.replicate 1000 7) ∧
      sortAndReduce (List.replicate 999 3 ++ [1]) (List.replicate 1000 7)
        = some (∑ i in Finset.range 1000,
            |(List.replicate 1000 (7 : Int)).getD i 0
              - (1 :: List.replicate 999 (3 : Int)).getD i 0|) :=
  C1_total_eq_sum_abs_diff (List.replicate 999 3 ++ [1]) (List.replicate 1000 7)
    (1 :: List.replicate 999 3) (List.replicate 1000 7)
    threes_one_length (List.length_replicate _ _)
    ⟨List.sorted_cons.2 ⟨fun b hb => by rw [List.eq_of_mem_replicate hb]; decide,
        List.pairwise_replicate.2 (Or.inr (le_refl _))⟩,
      (List.perm_append_comm :
        ([1] ++ List.replicate 999 (3 : Int)).Perm (List.replicate 999 3 ++ [1]))⟩
    ⟨List.pairwise_replicate.2 (Or.inr (le_refl _)), List.Perm.refl _⟩
    (le_trans (sum_abs_le _ _ 7 1000 (by decide)
        (fun x hx => by
          rcases List.mem_cons.1 hx with rfl | hx
          · decide
          · rw [List.eq_of_mem_replicate hx]; decide)
        (fun x hx => by rw [List.eq_of_mem_replicate hx]; decide))
      (by decide))

/-- C2: on every array of 1000 slots the sorter (1000 passes of 999 adjacent
compare-and-swap steps) returns an array of 1000 slots that is ascending:
`result[i] ≤ result[j]` for all `i < j < 1000`. Both arrays go through this sorter. -/
theorem C2_sortArray_ascending (a : List Int) (ha : a.length = 1000) :
    ∃ result, sortArray a = some result ∧ result.length = 1000 ∧
      ∀ i j, i < j → j < 1000 → result.getD i 0 ≤ result.getD j 0 := by
  obtain ⟨s, hs, hsorted, hperm⟩ := sortArray_spec a ha
  have hlen : s.length = 1000 := hperm.length_eq.trans ha
  refine ⟨s, hs, hlen, ?_⟩
  intro i j hij hj
  have hi' : i < s.length := by omega
  have hj' : j < s.length := by omega
  rw [List.getD_eq_getElem _ _ hi', List.getD_eq_getElem _ _ hj']
  exact List.pairwise_iff_getElem.1 hsorted i j hi' hj' hij

/-- Witness of C2: the array 1000, 999, ..., 1. -/
theorem C2_sortArray_ascending_witness :
    ∃ result, sortArray descending = some result ∧
      result.length = 1000 ∧
      ∀ i j, i < j → j < 1000 → result.getD i 0 ≤ result.getD j 0 :=
  C2_sortArray_ascending descending descending_length

/-- C3: on every array of 1000 slots the sorter returns a permutation of its
input: every value occurs in the result as many times as in the input. -/
theorem C3_sortArray_perm (a : List Int) (ha : a.length = 1000) :
    ∃ result, sortArray a = some result ∧ result.Perm a ∧
      ∀ v, result.count v = a.count v := by
  obtain ⟨s, hs, -, hperm⟩ := sortArray_spec a ha
  exact ⟨s, hs, hperm, fun v => hperm.count_eq v⟩

/-- Witness of C3: the array 1000, 999, ..., 1. -/
theorem C3_sortArray_perm_witness :
    ∃ result, sortArray descending = some result ∧
      result.Perm descending ∧
      ∀ v, result.count v = descending.count v :=
  C3_sortArray_perm descending descending_length

/-- C5: exchanging `array1` and `array2` before the sort and the reduce loop gives
the same value of `sum`. -/
theorem C5_swap_columns (array1 array2 : List Int)
    (h1 : array1.length = 1000) (h2 : array2.length = 1000) :
    ∃ sum, sortAndReduce array1 array2 = some sum ∧ sortAndReduce array2 array1 = some sum := by
  refine ⟨_, sortAndReduce_eq array1 array2 h1 h2, ?_⟩
  rw [sortAndReduce_eq array2 array1 h2 h1, sumFold_comm]

/-- Witness of C5: the array 1000, 999, ..., 1 against 1000 sevens. -/
theorem C5_swap_columns_witness :
    ∃ sum, sortAndReduce descending
          (List.replicate 1000 7) = some sum ∧
      sortAndReduce (List.replicate 1000 7)
          descending = some sum :=
  C5_swap_columns descending (List.replicate 1000 7)
    descending_length (List.length_replicate _ _)

/-- C8: reordering the entries of `array1`, and independently those of `array2`,
does not change the value of `sum`. -/
theorem C8_reorder_invariant (array1 array2 reordered1 reordered2 : List Int)
    (h1 : array1.length = 1000) (h2 : array2.length = 1000)
    (hp1 : reordered1.Perm array1) (hp2 : reordered2.Perm array2) :
    ∃ sum, sortAndReduce array1 array2 = some sum ∧
      sortAndReduce reordered1 reordered2 = some sum := by
  refine ⟨_, sortAndReduce_eq array1 array2 h1 h2, ?_⟩
  rw [sortAndReduce_eq reordered1 reordered2 (hp1.length_eq.trans h1) (hp2.length_eq.trans h2)]
  have e1 : reordered1.insertionSort (· ≤ ·) = array1.insertionSort (· ≤ ·) :=
    List.eq_of_perm_of_sorted
      (((List.perm_insertionSort _ _).trans hp1).trans (List.perm_insertionSort _ _).symm)
      (List.sorted_insertionSort _ _) (List.sorted_insertionSort _ _)
  have e2 : reordered2.insertionSort (· ≤ ·) = array2.insertionSort (· ≤ ·) :=
    List.eq_of_perm_of_sorted
      (((List.perm_insertionSort _ _).trans hp2).trans (List.perm_insertionSort _ _).symm)
      (List.sorted_insertionSort _ _) (List.sorted_insertionSort _ _)
  rw [e1, e2]

/-- Witness of C8: the one of `array1` moves from the last slot to the first, and
`array2` is reversed. -/
theorem C8_reorder_invariant_witness :
    ∃ sum, sortAndReduce (List.replicate 999 3 ++ [1])
          descending = some sum ∧
      sortAndReduce ([1] ++ List.replicate 999 3)
          descending.reverse = some sum :=
  C8_reorder_invariant (List.replicate 999 3 ++ [1])
    descending
    ([1] ++ List.replicate 999 3) descending.reverse
    threes_one_length descending_length List.perm_append_comm (List.reverse_perm _)

/-- The arrays the reader leaves for the worked example. -/
theorem reader_sampleText (init1 init2 : List Int)
    (h1 : init1.length = 1000) (h2 : init2.length = 1000) :
    reader sampleText init1 init2
      = some { file := [], array1 := [3, 4, 2, 1, 3, 3] ++ init1.drop 6,
               array2 := [4, 3, 5, 3, 9, 3] ++ init2.drop 6, index := 6 } := by
  rw [sampleText_eq, reader_short [' '] isGap_space sampleRecords init1 init2
    sampleRecords_inRange h1 h2 (by decide)]
  rfl

/-- The worked example when the unfilled slots of the two arrays hold `c1` and `c2`. -/
theorem total_sampleText_padded (init1 init2 : List Int) (c1 c2 : Int)
    (h1 : init1.length = 1000) (h2 : init2.length = 1000)
    (hd1 : init1.drop 6 = List.replicate 994 c1) (hd2 : init2.drop 6 = List.replicate 994 c2)
    (hc1 : c1 ≤ 1) (hc2 : c2 ≤ 3) :
    total sampleText init1 init2
      = some (sumFold (wrap32 (0 + (994 : Nat) * absDiff32 c1 c2))
          [1, 2, 3, 3, 3, 4] [3, 3, 3, 4, 5, 9]) := by
  unfold total
  rw [reader_sampleText init1 init2 h1 h2]
  show sortAndReduce ([3, 4, 2, 1, 3, 3] ++ init1.drop 6) ([4, 3, 5, 3, 9, 3] ++ init2.drop 6) = _
  rw [hd1, hd2]
  refine sortAndReduce_padded _ _ _ _ c1 c2 994 ⟨by decide, by decide⟩ ⟨by decide, by decide⟩
    ?_ ?_ (by decide) (by decide)
  · intro x hx
    simp only [List.mem_cons, List.mem_singleton, List.not_mem_nil, or_false] at hx
    omega
  · intro y hy
    simp only [List.mem_cons, List.mem_singleton, List.not_mem_nil, or_false] at hy
    omega

/-- C4 (as stated, refuted): with the six-record input, `array1` all zeros and
`array2` all ones before the read loop, the value of `sum` is 1005, not 11: the 994
slots the reader does not fill take part in the sort and in the sum. -/
theorem C4_counterexample :
    total sampleText zeros ones = some 1005 ∧ total sampleText zeros ones ≠ some 11 := by
  have h : total sampleText zeros ones = some 1005 := by
    rw [total_sampleText_padded zeros ones 0 1 zeros_length ones_length
      (by unfold zeros; rw [List.drop_replicate]) (by unfold ones; rw [List.drop_replicate])
      (by decide) (by decide)]
    decide
  exact ⟨h, by rw [h]; decide⟩

/-- C4 (amended): for the six-record input, when the 994 slots of `array1` and of
`array2` that the reader does not fill hold 0 before the read loop, the value of
`sum` is 11. -/
theorem C4_sample_total (init1 init2 : List Int)
    (h1 : init1.length = 1000) (h2 : init2.length = 1000)
    (hd1 : init1.drop 6 = List.replicate 994 0) (hd2 : init2.drop 6 = List.replicate 994 0) :
    total sampleText init1 init2 = some 11 := by
  rw [total_sampleText_padded init1 init2 0 0 h1 h2 hd1 hd2 (by decide) (by decide)]
  decide

/-- Witness of C4 (amended): both arrays hold 1000 zeros before the read loop. -/
theorem C4_sample_total_witness : total sampleText zeros zeros = some 11 :=
  C4_sample_total zeros zeros zeros_length zeros_length
    (by unfold zeros; rw [List.drop_replicate]) (by unfold zeros; rw [List.drop_replicate])

/-- C6 (as stated, refuted): on the input of 1000 records `0 2147483647` the value
of `sum` after the reduce loop is -1000. -/
theorem C6_counterexample :
    ∃ sum, total (render [' '] overflowRecords) zeros zeros = some sum ∧ sum < 0 := by
  refine ⟨-1000, ?_, by decide⟩
  have hlen : overflowRecords.length = 1000 := List.length_replicate _ _
  have hr := reader_long [' '] isGap_space overflowRecords zeros zeros
    overflowRecords_inRange zeros_length zeros_length (le_of_eq hlen.symm)
  rw [total_of_reader _ _ _ _ hr]
  have ht : overflowRecords.take 1000 = overflowRecords :=
    List.take_of_length_le (le_of_eq hlen)
  have e1 : overflowRecords.map Prod.fst = List.replicate 1000 0 := List.map_replicate
  have e2 : overflowRecords.map Prod.snd = List.replicate 1000 2147483647 := List.map_replicate
  simp only [ht, e1, e2]
  rw [sortAndReduce_eq _ _ (List.length_replicate _ _) (List.length_replicate _ _),
    insertionSort_replicate, insertionSort_replicate]
  have := sumFold_replicate 0 2147483647 1000 0
  rw [show wrap32 0 = 0 by decide] at this
  rw [this]
  decide

/-- C6 (amended): when no `int` overflow occurs, that is when the exact sum of the
1000 absolute differences of the sorted arrays is at most `INT_MAX`, the value of
`sum` after the reduce loop is greater than or equal to 0. -/
theorem C6_sum_nonneg (array1 array2 L R : List Int)
    (h1 : array1.length = 1000) (h2 : array2.length = 1000)
    (hL : L.Sorted (· ≤ ·) ∧ L.Perm array1) (hR : R.Sorted (· ≤ ·) ∧ R.Perm array2)
    (hno : (∑ i in Finset.range 1000, |R.getD i 0 - L.getD i 0|) ≤ INT_MAX) :
    ∃ sum, sortAndReduce array1 array2 = some sum ∧ 0 ≤ sum :=
  ⟨_, sortAndReduce_exact array1 array2 L R h1 h2 hL hR hno,
    Finset.sum_nonneg (fun _ _ => abs_nonneg _)⟩

/-- Witness of C6 (amended): `array1` is 1000 zeros and `array2` is 1000 ones. -/
theorem C6_sum_nonneg_witness : ∃ sum, sortAndReduce zeros ones = some sum ∧ 0 ≤ sum :=
  C6_sum_nonneg zeros ones zeros ones zeros_length ones_length
    ⟨List.pairwise_replicate.2 (Or.inr (le_refl _)), List.Perm.refl _⟩
    ⟨List.pairwise_replicate.2 (Or.inr (le_refl _)), List.Perm.refl _⟩
    (le_trans (sum_abs_le _ _ 1 1000 (by decide)
        (fun x hx => by rw [List.eq_of_mem_replicate hx]; decide)
        (fun x hx => by rw [List.eq_of_mem_replicate hx]; decide))
      (by decide))

/-- C7 (as stated, refuted): on the six-record input, with `array1` all zeros
before the read loop, the sorted `array1` is not a rearrangement of the parsed left
column 3, 4, 2, 1, 3, 3: it has 1000 values, 994 of them from unfilled slots. -/
theorem C7_counterexample :
    ∃ s sortedLeft, reader sampleText zeros zeros = some s ∧
      sortArray s.array1 = some sortedLeft ∧
      ¬ sortedLeft.Perm (sampleRecords.map Prod.fst) := by
  have hr := reader_sampleText zeros zeros zeros_length zeros_length
  have hlen : ([3, 4, 2, 1, 3, 3] ++ zeros.drop 6).length = 1000 := by
    unfold zeros
    rw [List.length_append, List.length_drop, List.length_replicate]
    rfl
  obtain ⟨sl, hs, -, hperm⟩ := sortArray_spec _ hlen
  refine ⟨_, sl, hr, hs, ?_⟩
  intro h
  have := (hperm.symm.trans h).length_eq
  rw [hlen] at this
  exact absurd this (by decide)

/-- C7 (amended): for every input of `N ≤ 1000` well-formed records, the sorted
`array1` holds, as a multiset, the `N` parsed left values together with the values
that the `1000 - N` unfilled slots of `array1` held before the read loop, and
likewise the sorted `array2` for the right values; for `N = 1000` these are exactly
the parsed columns. -/
theorem C7_sorted_multiset (gap : List Char) (recs : List (Int × Int))
    (init1 init2 : List Int) (hgap : IsGap gap) (hr : ∀ p ∈ recs, RecordInRange p)
    (h1 : init1.length = 1000) (h2 : init2.length = 1000) (hN : recs.length ≤ 1000) :
    ∃ s sortedLeft sortedRight, reader (render gap recs) init1 init2 = some s ∧
      sortArray s.array1 = some sortedLeft ∧ sortArray s.array2 = some sortedRight ∧
      sortedLeft.Perm (recs.map Prod.fst ++ init1.drop recs.length) ∧
      sortedRight.Perm (recs.map Prod.snd ++ init2.drop recs.length) ∧
      (recs.length = 1000 →
        sortedLeft.Perm (recs.map Prod.fst) ∧ sortedRight.Perm (recs.map Prod.snd)) := by
  obtain ⟨s, hs, -, ha1, ha2⟩ := reader_records gap hgap recs init1 init2 hr h1 h2 hN
  have hl1 : s.array1.length = 1000 := by
    rw [ha1, List.length_append, List.length_map, List.length_drop, h1]; omega
  have hl2 : s.array2.length = 1000 := by
    rw [ha2, List.length_append, List.length_map, List.length_drop, h2]; omega
  obtain ⟨sl, hsl, -, hpl⟩ := sortArray_spec _ hl1
  obtain ⟨sr, hsr, -, hpr⟩ := sortArray_spec _ hl2
  rw [ha1] at hpl
  rw [ha2] at hpr
  refine ⟨s, sl, sr, hs, hsl, hsr, hpl, hpr, ?_⟩
  intro hlen
  rw [List.drop_of_length_le (by omega), List.append_nil] at hpl hpr
  exact ⟨hpl, hpr⟩

/-- Witness of C7 (amended): the six-record input with both arrays all zeros. -/
theorem C7_sorted_multiset_witness :
    ∃ s sortedLeft sortedRight, reader (render [' '] sampleRecords) zeros zeros = some s ∧
      sortArray s.array1 = some sortedLeft ∧ sortArray s.array2 = some sortedRight ∧
      sortedLeft.Perm (sampleRecords.map Prod.fst ++ zeros.drop sampleRecords.length) ∧
      sortedRight.Perm (sampleRecords.map Prod.snd ++ zeros.drop sampleRecords.length) ∧
      (sampleRecords.length = 1000 →
        sortedLeft.Perm (sampleRecords.map Prod.fst) ∧
          sortedRight.Perm (sampleRecords.map Prod.snd)) :=
  C7_sorted_multiset [' '] sampleRecords zeros zeros isGap_space sampleRecords_inRange
    zeros_length zeros_length (by decide)

/-- C9: for every input of `N ≤ 1000` well-formed records (two `int` values in
decimal, white space between them, one record per line) the reader finishes with
`index = N`, the first `N` slots of `array1` hold the first integers of the records
and the first `N` slots of `array2` the second integers, in the order of the input;
both sequences have length `N`. -/
theorem C9_reader_count (gap : List Char) (recs : List (Int × Int))
    (init1 init2 : List Int) (hgap : IsGap gap) (hr : ∀ p ∈ recs, RecordInRange p)
    (h1 : init1.length = 1000) (h2 : init2.length = 1000) (hN : recs.length ≤ 1000) :
    ∃ s, reader (render gap recs) init1 init2 = some s ∧ s.index = recs.length ∧
      s.array1.take s.index = recs.map Prod.fst ∧
      s.array2.take s.index = recs.map Prod.snd ∧
      (s.array1.take s.index).length = recs.length ∧
      (s.array2.take s.index).length = recs.length := by
  obtain ⟨s, hs, hi, ha1, ha2⟩ := reader_records gap hgap recs init1 init2 hr h1 h2 hN
  have t1 : s.array1.take s.index = recs.map Prod.fst := by
    rw [hi, ha1, List.take_left' (List.length_map _ _)]
  have t2 : s.array2.take s.index = recs.map Prod.snd := by
    rw [hi, ha2, List.take_left' (List.length_map _ _)]
  exact ⟨s, hs, hi, t1, t2, by rw [t1, List.length_map], by rw [t2, List.length_map]⟩

/-- Witness of C9: the six-record input with both arrays all zeros. -/
theorem C9_reader_count_witness :
    ∃ s, reader (render [' '] sampleRecords) zeros zeros = some s ∧
      s.index = sampleRecords.length ∧
      s.array1.take s.index = sampleRecords.map Prod.fst ∧
      s.array2.take s.index = sampleRecords.map Prod.snd ∧
      (s.array1.take s.index).length = sampleRecords.length ∧
      (s.array2.take s.index).length = sampleRecords.length :=
  C9_reader_count [' '] sampleRecords zeros zeros isGap_space sampleRecords_inRange
    zeros_length zeros_length (by decide)

/-- C10: for every input of more than 1000 well-formed records the reader stops
with `index = 1000` and without a fault; the arrays hold exactly the first 1000
records, and the value of `sum` is the one computed from the first 1000 records
alone. -/
theorem C10_reader_truncates (gap : List Char) (recs : List (Int × Int))
    (init1 init2 : List Int) (hgap : IsGap gap) (hr : ∀ p ∈ recs, RecordInRange p)
    (h1 : init1.length = 1000) (h2 : init2.length = 1000) (hN : 1000 < recs.length) :
    ∃ s sum, reader (render gap recs) init1 init2 = some s ∧ s.index = 1000 ∧
      s.array1 = (recs.take 1000).map Prod.fst ∧
      s.array2 = (recs.take 1000).map Prod.snd ∧
      total (render gap recs) init1 init2 = some sum ∧
      total (render gap (recs.take 1000)) init1 init2 = some sum := by
  have hlen : (recs.take 1000).length = 1000 := by rw [List.length_take]; omega
  have hfull := reader_long gap hgap recs init1 init2 hr h1 h2 (by omega)
  have hcut := reader_long gap hgap (recs.take 1000) init1 init2
    (fun p hp => hr p (List.mem_of_mem_take hp)) h1 h2 (by omega)
  have htt : (recs.take 1000).take 1000 = recs.take 1000 :=
    List.take_of_length_le (by omega)
  have hsum := sortAndReduce_eq ((recs.take 1000).map Prod.fst) ((recs.take 1000).map Prod.snd)
    (by rw [List.length_map, hlen]) (by rw [List.length_map, hlen])
  have t1 : total (render gap recs) init1 init2 = some _ :=
    (total_of_reader _ _ _ _ hfull).trans hsum
  have t2 : total (render gap (recs.take 1000)) init1 init2
      = sortAndReduce ((recs.take 1000).map Prod.fst) ((recs.take 1000).map Prod.snd) := by
    rw [total_of_reader _ _ _ _ hcut]
    simp only [htt]
  rw [hsum] at t2
  exact ⟨_, _, hfull, rfl, rfl, rfl, t1, t2⟩

/-- Witness of C10: an input of 1001 records `1 2`. -/
theorem C10_reader_truncates_witness :
    ∃ s sum, reader (render [' '] longRecords) zeros zeros = some s ∧ s.index = 1000 ∧
      s.array1 = (longRecords.take 1000).map Prod.fst ∧
      s.array2 = (longRecords.take 1000).map Prod.snd ∧
      total (render [' '] longRecords) zeros zeros = some sum ∧
      total (render [' '] (longRecords.take 1000)) zeros zeros = some sum :=
  C10_reader_truncates [' '] longRecords zeros zeros isGap_space longRecords_inRange
    zeros_length zeros_length (by rw [longRecords_length]; decide)

/-- C20: for every array of 1000 slots and every `k ≤ 1000`, `k` complete passes
of the inner loop return an array, a rearrangement of the input, in which the last
`k` positions are ascending and every value in the first `1000 - k` positions is at
most every value in the last `k` (so the last `k` positions hold the `k` largest
values). -/
theorem C20_pass_invariant (a : List Int) (k : Nat) (ha : a.length = 1000) (hk : k ≤ 1000) :
    ∃ b, forLoop k (fun _ s => innerLoop s) a = some b ∧ b.length = 1000 ∧ b.Perm a ∧
      (b.drop (1000 - k)).Sorted (· ≤ ·) ∧
      ∀ x ∈ b.take (1000 - k), ∀ y ∈ b.drop (1000 - k), x ≤ y := by
  have hperm := iterate_bubble_perm k a
  have hlen : (bubble^[k] a).length = 1000 := hperm.length_eq.trans ha
  have hs := Settled_take_drop k _ (Settled_iterate k a (by omega))
  rw [hlen] at hs
  exact ⟨_, passes_eq k a ha, hlen, hperm, hs.1, hs.2⟩

/-- Witness of C20: 400 passes over the array 1000, 999, ..., 1. -/
theorem C20_pass_invariant_witness :
    ∃ b, forLoop 400 (fun _ s => innerLoop s) descending = some b ∧ b.length = 1000 ∧
      b.Perm descending ∧ (b.drop (1000 - 400)).Sorted (· ≤ ·) ∧
      ∀ x ∈ b.take (1000 - 400), ∀ y ∈ b.drop (1000 - 400), x ≤ y :=
  C20_pass_invariant descending 400 descending_length (by decide)

/-- C19: for every input text and every pair of arrays of 1000 slots, no array
access of the program is out of bounds: the reader returns with `index ≤ 1000` and
the arrays at 1000 slots, both sorts return, and the reduce loop returns a sum (a
fault, which every out-of-bounds access is, does not occur). -/
theorem C19_no_out_of_bounds (file : List Char) (init1 init2 : List Int)
    (h1 : init1.length = 1000) (h2 : init2.length = 1000) :
    ∃ s sorted1 sorted2 sum, reader file init1 init2 = some s ∧ s.index ≤ 1000 ∧
      sortArray s.array1 = some sorted1 ∧ sortArray s.array2 = some sorted2 ∧
      reduceLoop sorted1 sorted2 = some sum ∧ total file init1 init2 = some sum := by
  obtain ⟨s, hs, l1, l2, hi⟩ := reader_total file init1 init2 h1 h2
  obtain ⟨s1, e1, -, p1⟩ := sortArray_spec s.array1 l1
  obtain ⟨s2, e2, -, p2⟩ := sortArray_spec s.array2 l2
  have hr := reduceLoop_eq s1 s2 (p1.length_eq.trans l1) (p2.length_eq.trans l2)
  refine ⟨s, s1, s2, _, hs, hi, e1, e2, hr, ?_⟩
  rw [total_of_reader _ _ _ _ hs]
  unfold sortAndReduce
  rw [e1, e2]
  exact hr

/-- Witness of C19: the worked example with both arrays all zeros. -/
theorem C19_no_out_of_bounds_witness :
    ∃ s sorted1 sorted2 sum, reader sampleText zeros zeros = some s ∧ s.index ≤ 1000 ∧
      sortArray s.array1 = some sorted1 ∧ sortArray s.array2 = some sorted2 ∧
      reduceLoop sorted1 sorted2 = some sum ∧ total sampleText zeros zeros = some sum :=
  C19_no_out_of_bounds sampleText zeros zeros zeros_length zeros_length

/-- C14: for every integer `sum`, the text that `printf("\n%d\n\n", sum)` writes is
a newline, the decimal representation of `sum`, and two newlines; this text, with
exit status 0, is the whole result of `main` whenever the program computes `sum`. -/
theorem C14_output_format (sum : Int) (file : List Char) (init1 init2 : List Int) :
    printf sum = ['\n'] ++ (toString sum).toList ++ ['\n', '\n'] ∧
      main (some file) init1 init2
        = (total file init1 init2).map
            (fun t => (['\n'] ++ (toString t).toList ++ ['\n', '\n'], 0)) := by
  constructor
  · unfold printf
    rw [renderInt_eq_repr]
    rfl
  · rw [main_some]
    congr 1
    funext t
    unfold printf
    rw [renderInt_eq_repr]
    rfl

/-- C13 (as stated, refuted): when the file cannot be opened the program does not
end with a non-zero exit status and a text on standard output. -/
theorem C13_counterexample :
    ¬ ∃ out status, main none zeros zeros = some (out, status) ∧ status ≠ 0 := by
  rintro ⟨out, status, h, -⟩
  exact absurd h (by simp [main])

/-- C13 (amended): the program has no error path. When the file cannot be opened
the null pointer goes unchecked to `fscanf`, which is undefined behaviour (a fault
here), so nothing is read, sorted or reduced, and no status or diagnostic is
produced; when the file opens, the exit status is 0. -/
theorem C13_null_file (file : List Char) (init1 init2 : List Int) :
    main none init1 init2 = none ∧
      (main (some file) init1 init2).map Prod.snd
        = (total file init1 init2).map (fun _ => 0) := by
  refine ⟨rfl, ?_⟩
  rw [main_some]
  cases total file init1 init2 <;> rfl

/-- C11 (as stated, refuted): on the empty input, with `array1` all zeros and
`array2` all ones before the read loop, the value of `sum` is 1000, not 0. -/
theorem C11_counterexample :
    total [] zeros ones = some 1000 ∧ total [] zeros ones ≠ some 0 := by
  obtain ⟨s, hs, e1, e2, -⟩ :=
    reader_noLeadingInt [] zeros ones noLeadingInt_nil zeros_length ones_length
  have h : total [] zeros ones = some 1000 := by
    rw [total_of_reader _ _ _ _ hs, e1, e2]
    exact sortAndReduce_zeros_ones
  exact ⟨h, by rw [h]; decide⟩

/-- C11 (amended): for an input that does not begin, after white space, with an
integer (the empty input among them), no record is read and no fault is raised, and
the value of `sum` is 0 provided `array1` and `array2` hold the same values (for
example all 0) before the read loop. -/
theorem C11_no_records_total (file : List Char) (init1 init2 : List Int)
    (hfile : NoLeadingInt file) (h1 : init1.length = 1000) (h2 : init2.length = 1000)
    (hp : init1.Perm init2) :
    ∃ s, reader file init1 init2 = some s ∧ s.index = 0 ∧
      total file init1 init2 = some 0 := by
  obtain ⟨s, hs, e1, e2, hi⟩ := reader_noLeadingInt file init1 init2 hfile h1 h2
  refine ⟨s, hs, hi, ?_⟩
  rw [total_of_reader _ _ _ _ hs, e1, e2]
  exact sortAndReduce_perm init1 init2 h1 hp

/-- Witness of C11 (amended): the empty input with both arrays all zeros. -/
theorem C11_no_records_total_witness :
    ∃ s, reader [] zeros zeros = some s ∧ s.index = 0 ∧ total [] zeros zeros = some 0 :=
  C11_no_records_total [] zeros zeros noLeadingInt_nil zeros_length zeros_length
    (List.Perm.refl _)

/-- C15 (as stated, refuted): on the six-record input, with `array2` all ones
before the read loop, the unfilled slot 6 of `array2` holds 1, not 0, when sorting
begins. -/
theorem C15_counterexample :
    ∃ s, reader sampleText zeros ones = some s ∧ s.index = 6 ∧
      s.array2.getD 6 0 = 1 ∧ s.array2.getD 6 0 ≠ 0 := by
  refine ⟨_, reader_sampleText zeros ones zeros_length ones_length, rfl, ?_, ?_⟩
  · show (([4, 3, 5, 3, 9, 3] : List Int) ++ ones.drop 6).getD 6 0 = 1
    unfold ones
    rw [List.drop_replicate]
    rfl
  · show (([4, 3, 5, 3, 9, 3] : List Int) ++ ones.drop 6).getD 6 0 ≠ 0
    unfold ones
    rw [List.drop_replicate]
    decide

/-- C15 (amended): when `N < 1000` well-formed records are read, every unfilled
slot `i ≥ N` of `array1` and `array2` holds, when sorting begins, the value it held
before the read loop (the arrays are not initialised), and these slots take part in
the sort and in the sum: each sorted array is a rearrangement of all 1000 slots, the
parsed values together with the unfilled ones, and the reduce loop runs over the two
sorted arrays of 1000 slots. -/
theorem C15_unfilled_slots (gap : List Char) (recs : List (Int × Int))
    (init1 init2 : List Int) (hgap : IsGap gap) (hr : ∀ p ∈ recs, RecordInRange p)
    (h1 : init1.length = 1000) (h2 : init2.length = 1000) (hN : recs.length < 1000) :
    ∃ s sorted1 sorted2 sum, reader (render gap recs) init1 init2 = some s ∧
      s.index = recs.length ∧
      (∀ i, recs.length ≤ i → i < 1000 →
        s.array1[i]? = init1[i]? ∧ s.array2[i]? = init2[i]?) ∧
      sortArray s.array1 = some sorted1 ∧ sortArray s.array2 = some sorted2 ∧
      sorted1.length = 1000 ∧ sorted2.length = 1000 ∧
      sorted1.Perm (recs.map Prod.fst ++ init1.drop recs.length) ∧
      sorted2.Perm (recs.map Prod.snd ++ init2.drop recs.length) ∧
      reduceLoop sorted1 sorted2 = some sum ∧
      total (render gap recs) init1 init2 = some sum := by
  have hs := reader_short gap hgap recs init1 init2 hr h1 h2 hN
  have l1 : (recs.map Prod.fst ++ init1.drop recs.length).length = 1000 := by
    rw [List.length_append, List.length_map, List.length_drop, h1]; omega
  have l2 : (recs.map Prod.snd ++ init2.drop recs.length).length = 1000 := by
    rw [List.length_append, List.length_map, List.length_drop, h2]; omega
  obtain ⟨s1, e1, -, p1⟩ := sortArray_spec _ l1
  obtain ⟨s2, e2, -, p2⟩ := sortArray_spec _ l2
  have hred := reduceLoop_eq s1 s2 (p1.length_eq.trans l1) (p2.length_eq.trans l2)
  refine ⟨_, s1, s2, _, hs, rfl, ?_, e1, e2, p1.length_eq.trans l1, p2.length_eq.trans l2,
    p1, p2, hred, ?_⟩
  · intro i hi _
    have slot : ∀ (col init : List Int), col.length = recs.length →
        (col ++ init.drop recs.length)[i]? = init[i]? := by
      intro col init hc
      rw [List.getElem?_append_right (by omega), List.getElem?_drop, hc]
      congr 1
      omega
    exact ⟨slot _ init1 (List.length_map _ _), slot _ init2 (List.length_map _ _)⟩
  · rw [total_of_reader _ _ _ _ hs]
    unfold sortAndReduce
    simp only [e1, e2]
    exact hred

/-- Witness of C15 (amended): the six-record input, `array1` all zeros and `array2`
all ones before the read loop. -/
theorem C15_unfilled_slots_witness :
    ∃ s sorted1 sorted2 sum, reader (render [' '] sampleRecords) zeros ones = some s ∧
      s.index = sampleRecords.length ∧
      (∀ i, sampleRecords.length ≤ i → i < 1000 →
        s.array1[i]? = zeros[i]? ∧ s.array2[i]? = ones[i]?) ∧
      sortArray s.array1 = some sorted1 ∧ sortArray s.array2 = some sorted2 ∧
      sorted1.length = 1000 ∧ sorted2.length = 1000 ∧
      sorted1.Perm (sampleRecords.map Prod.fst ++ zeros.drop sampleRecords.length) ∧
      sorted2.Perm (sampleRecords.map Prod.snd ++ ones.drop sampleRecords.length) ∧
      reduceLoop sorted1 sorted2 = some sum ∧
      total (render [' '] sampleRecords) zeros ones = some sum :=
  C15_unfilled_slots [' '] sampleRecords zeros ones isGap_space sampleRecords_inRange
    zeros_length ones_length (by decide)

/-- C17: in exact integer arithmetic (no overflow: the exact sum of the 1000
absolute differences of the sorted arrays is at most `INT_MAX`), the value of `sum`
is 0 if and only if the two arrays of 1000 slots hold the same multiset of values. -/
theorem C17_zero_iff_same_multiset (array1 array2 L R : List Int)
    (h1 : array1.length = 1000) (h2 : array2.length = 1000)
    (hL : L.Sorted (· ≤ ·) ∧ L.Perm array1) (hR : R.Sorted (· ≤ ·) ∧ R.Perm array2)
    (hno : (∑ i in Finset.range 1000, |R.getD i 0 - L.getD i 0|) ≤ INT_MAX) :
    sortAndReduce array1 array2 = some 0 ↔ array1.Perm array2 := by
  have hLl : L.length = 1000 := hL.2.length_eq.trans h1
  have hRl : R.length = 1000 := hR.2.length_eq.trans h2
  have hexact := sortAndReduce_exact array1 array2 L R h1 h2 hL hR hno
  rw [← exactSum_eq_sum_range L R 1000 hLl hRl] at hexact
  constructor
  · intro h
    rw [hexact] at h
    have hz : exactSum L R = 0 := Option.some.inj h
    have hLR : L = R := exactSum_eq_zero L R (hLl.trans hRl.symm) hz
    exact (hL.2.symm.trans (hLR ▸ List.Perm.refl L)).trans hR.2
  · intro h
    exact sortAndReduce_perm array1 array2 h1 h

/-- Witness of C17: `array1` is 999 threes followed by a one, `array2` is 1000 sevens. -/
theorem C17_zero_iff_same_multiset_witness :
    sortAndReduce (List.replicate 999 3 ++ [1]) (List.replicate 1000 7) = some 0 ↔
      (List.replicate 999 (3 : Int) ++ [1]).Perm (List.replicate 1000 7) :=
  C17_zero_iff_same_multiset (List.replicate 999 3 ++ [1]) (List.replicate 1000 7)
    (1 :: List.replicate 999 3) (List.replicate 1000 7)
    threes_one_length (List.length_replicate _ _)
    ⟨List.sorted_cons.2 ⟨fun b hb => by rw [List.eq_of_mem_replicate hb]; decide,
        List.pairwise_replicate.2 (Or.inr (le_refl _))⟩,
      (List.perm_append_comm :
        ([1] ++ List.replicate 999 (3 : Int)).Perm (List.replicate 999 3 ++ [1]))⟩
    ⟨List.pairwise_replicate.2 (Or.inr (le_refl _)), List.Perm.refl _⟩
    (le_trans (sum_abs_le _ _ 7 1000 (by decide)
        (fun x hx => by
          rcases List.mem_cons.1 hx with rfl | hx
          · decide
          · rw [List.eq_of_mem_replicate hx]; decide)
        (fun x hx => by rw [List.eq_of_mem_replicate hx]; decide))
      (by decide))

/-- C18: if every value of both arrays of 1000 slots has absolute value at most
1073741, then no subtraction, multiplication by -1 or addition of the reduce loop
leaves the `int` range (the loop with every operation checked returns), and the
`int` result is the exact sum of the 1000 absolute differences of the sorted arrays. -/
theorem C18_no_overflow_within_bound (array1 array2 : List Int)
    (h1 : array1.length = 1000) (h2 : array2.length = 1000)
    (hb1 : ∀ x ∈ array1, |x| ≤ 1073741) (hb2 : ∀ x ∈ array2, |x| ≤ 1073741) :
    ∃ sorted1 sorted2, sortArray array1 = some sorted1 ∧ sortArray array2 = some sorted2 ∧
      reduceLoopChecked sorted1 sorted2
        = some (∑ i in Finset.range 1000, |sorted2.getD i 0 - sorted1.getD i 0|) ∧
      reduceLoop sorted1 sorted2
        = some (∑ i in Finset.range 1000, |sorted2.getD i 0 - sorted1.getD i 0|) ∧
      sortAndReduce array1 array2
        = some (∑ i in Finset.range 1000, |sorted2.getD i 0 - sorted1.getD i 0|) := by
  obtain ⟨s1, e1, hs1, p1⟩ := sortArray_spec array1 h1
  obtain ⟨s2, e2, hs2, p2⟩ := sortArray_spec array2 h2
  have l1 : s1.length = 1000 := p1.length_eq.trans h1
  have l2 : s2.length = 1000 := p2.length_eq.trans h2
  have hno : (∑ i in Finset.range 1000, |s2.getD i 0 - s1.getD i 0|) ≤ INT_MAX :=
    le_trans (sum_abs_le s1 s2 1073741 1000 (by decide)
      (fun x hx => hb1 x (p1.subset hx)) (fun x hx => hb2 x (p2.subset hx))) (by decide)
  have hsum := sortAndReduce_exact array1 array2 s1 s2 h1 h2 ⟨hs1, p1⟩ ⟨hs2, p2⟩ hno
  have hred : reduceLoop s1 s2
      = some (∑ i in Finset.range 1000, |s2.getD i 0 - s1.getD i 0|) := by
    rw [← hsum]
    unfold sortAndReduce
    rw [e1, e2]
  refine ⟨s1, s2, e1, e2, ?_, hred, hsum⟩
  rw [← exactSum_eq_sum_range s1 s2 1000 l1 l2] at hno ⊢
  exact reduceLoopChecked_eq s1 s2 l1 l2 hno

/-- Witness of C18: the array 1000, 999, ..., 1 against 1000 sevens. -/
theorem C18_no_overflow_within_bound_witness :
    ∃ sorted1 sorted2, sortArray descending = some sorted1 ∧
      sortArray (List.replicate 1000 7) = some sorted2 ∧
      reduceLoopChecked sorted1 sorted2
        = some (∑ i in Finset.range 1000, |sorted2.getD i 0 - sorted1.getD i 0|) ∧
      reduceLoop sorted1 sorted2
        = some (∑ i in Finset.range 1000, |sorted2.getD i 0 - sorted1.getD i 0|) ∧
      sortAndReduce descending (List.replicate 1000 7)
        = some (∑ i in Finset.range 1000, |sorted2.getD i 0 - sorted1.getD i 0|) :=
  C18_no_overflow_within_bound descending (List.replicate 1000 7) descending_length
    (List.length_replicate _ _) descending_bound
    (fun x hx => by rw [List.eq_of_mem_replicate hx]; decide)

/-- C12 (as stated, refuted): on the text `1`, newline, `2`, newline, the first
line does not yield two integers, so read line by line the text has no record; the
reader nevertheless collects the record (1, 2), the 2 coming from the second line. -/
theorem C12_counterexample :
    ∃ s, reader crossLineText zeros zeros = some s ∧ s.index = 1 ∧
      s.array1.take 1 = [1] ∧ s.array2.take 1 = [2] ∧
      specLineReader crossLineText = [] := by
  have hs := reader_short ['\n'] isGap_newline [(1, 2)] zeros zeros
    (by
      intro p hp
      rw [List.mem_singleton] at hp
      rw [hp]
      exact ⟨inRange_small _ (by decide) (by decide), inRange_small _ (by decide) (by decide)⟩)
    zeros_length zeros_length (by decide)
  rw [← crossLineText_eq] at hs
  exact ⟨_, hs, rfl, rfl, rfl, by decide⟩

/-- C12 (amended): for every input text made of `N < 1000` well-formed record
lines followed by text that does not begin, after white space, with an integer, the
records the reader collects are exactly the pairs of those `N` lines, in order;
reading stops there, the other slots of the arrays keep what they held (nothing of
the following text is stored), and the data is then sorted and reduced without a
fault. -/
theorem C12_stops_at_non_integer (gap tail : List Char) (recs : List (Int × Int))
    (init1 init2 : List Int) (hgap : IsGap gap) (htail : NoLeadingInt tail)
    (hr : ∀ p ∈ recs, RecordInRange p)
    (h1 : init1.length = 1000) (h2 : init2.length = 1000) (hN : recs.length < 1000) :
    ∃ s sum, reader (render gap recs ++ tail) init1 init2 = some s ∧
      s.index = recs.length ∧
      s.array1 = recs.map Prod.fst ++ init1.drop recs.length ∧
      s.array2 = recs.map Prod.snd ++ init2.drop recs.length ∧
      total (render gap recs ++ tail) init1 init2 = some sum ∧
      sortAndReduce (recs.map Prod.fst ++ init1.drop recs.length)
        (recs.map Prod.snd ++ init2.drop recs.length) = some sum := by
  obtain ⟨rest, hs⟩ := reader_stop gap tail hgap htail recs init1 init2 hr h1 h2 hN
  have l1 : (recs.map Prod.fst ++ init1.drop recs.length).length = 1000 := by
    rw [List.length_append, List.length_map, List.length_drop, h1]; omega
  have l2 : (recs.map Prod.snd ++ init2.drop recs.length).length = 1000 := by
    rw [List.length_append, List.length_map, List.length_drop, h2]; omega
  have hsum := sortAndReduce_eq _ _ l1 l2
  exact ⟨_, _, hs, rfl, rfl, rfl, (total_of_reader _ _ _ _ hs).trans hsum, hsum⟩

/-- Witness of C12 (amended): the six record lines followed by the line `end`. -/
theorem C12_stops_at_non_integer_witness :
    ∃ s sum, reader (render [' '] sampleRecords ++ ['e', 'n', 'd', '\n']) zeros zeros
        = some s ∧
      s.index = sampleRecords.length ∧
      s.array1 = sampleRecords.map Prod.fst ++ zeros.drop sampleRecords.length ∧
      s.array2 = sampleRecords.map Prod.snd ++ zeros.drop sampleRecords.length ∧
      total (render [' '] sampleRecords ++ ['e', 'n', 'd', '\n']) zeros zeros = some sum ∧
      sortAndReduce (sampleRecords.map Prod.fst ++ zeros.drop sampleRecords.length)
        (sampleRecords.map Prod.snd ++ zeros.drop sampleRecords.length) = some sum :=
  C12_stops_at_non_integer [' '] ['e', 'n', 'd', '\n'] sampleRecords zeros zeros isGap_space
    (fun v rest h => by
      have e : scanInt ['e', 'n', 'd', '\n'] = Conv.matchFail ['e', 'n', 'd', '\n'] := by
        rfl
      rw [e] at h
      exact Conv.noConfusion h)
    sampleRecords_inRange zeros_length zeros_length (by decide)

/-- C16: assume the unfilled slots of both arrays hold 0. For every input of
`N ≤ 1000` well-formed records (negative values included), in exact integer
arithmetic (no overflow: the sum below is at most `INT_MAX`), the value of `sum`
computed over all 1000 slots is the sum over `i < N` of `|R[i] - L[i]|`, where `L` and
`R` are the ascending rearrangements of the `N` parsed left and right values alone:
the `1000 - N` zeros that pad both arrays do not change the result. -/
theorem C16_zero_padding (gap : List Char) (recs : List (Int × Int))
    (init1 init2 L R : List Int) (hgap : IsGap gap) (hr : ∀ p ∈ recs, RecordInRange p)
    (h1 : init1.length = 1000) (h2 : init2.length = 1000) (hN : recs.length ≤ 1000)
    (hz1 : init1.drop recs.length = List.replicate (1000 - recs.length) 0)
    (hz2 : init2.drop recs.length = List.replicate (1000 - recs.length) 0)
    (hL : L.Sorted (· ≤ ·) ∧ L.Perm (recs.map Prod.fst))
    (hR : R.Sorted (· ≤ ·) ∧ R.Perm (recs.map Prod.snd))
    (hno : (∑ i in Finset.range recs.length, |R.getD i 0 - L.getD i 0|) ≤ INT_MAX) :
    total (render gap recs) init1 init2
      = some (∑ i in Finset.range recs.length, |R.getD i 0 - L.getD i 0|) := by
  obtain ⟨s, hs, -, e1, e2⟩ := reader_records gap hgap recs init1 init2 hr h1 h2 hN
  have hLl : L.length = recs.length := hL.2.length_eq.trans (List.length_map _ _)
  have hRl : R.length = recs.length := hR.2.length_eq.trans (List.length_map _ _)
  rw [← exactSum_eq_sum_range L R recs.length hLl hRl] at hno ⊢
  rw [total_of_reader _ _ _ _ hs, e1, e2, hz1, hz2]
  exact sortAndReduce_same_padding _ _ L R 0 (1000 - recs.length) hL hR
    (by rw [List.length_map]; omega) (by rw [List.length_map]; omega) hno

/-- Witness of C16: the two records (-5, 3) and (2, -7) with both arrays all zeros. -/
theorem C16_zero_padding_witness :
    total (render [' '] negativeRecords) zeros zeros
      = some (∑ i in Finset.range negativeRecords.length,
          |([-7, 3] : List Int).getD i 0 - ([-5, 2] : List Int).getD i 0|) :=
  C16_zero_padding [' '] negativeRecords zeros zeros [-5, 2] [-7, 3] isGap_space
    negativeRecords_inRange zeros_length zeros_length (by decide)
    (by unfold zeros; rw [List.drop_replicate])
    (by unfold zeros; rw [List.drop_replicate])
    ⟨by decide, by decide⟩ ⟨by decide, by decide⟩ (by decide)

end Day1
